import Mathlib

/-!
# Amesos_Umfpack: the bridge between a distributed sparse matrix and UMFPACK

A shallow embedding of `packages/amesos/src/Amesos_Umfpack.cpp`.

* `double` is an abstract type `V` carrying `+`, `0` and a decidable equality; the only
  floating-point operations of the embedded code are `Values[i] += AddToDiag_` and the test
  `AddToDiag_ != 0.0`.
* Every method is a function on the member state `State V` of one process. What the process
  sees of the outside (its rank, the matrix, the vectors, the replies of UMFPACK, the payload of
  a broadcast) is an `Env V`, which may differ from call to call.
* `assert` is taken as compiled in: a failed assertion ends the process (`Outcome.abort`).
* The calls a process makes to UMFPACK and the broadcast of `GetRcond` are recorded, oldest
  first, in the ghost field `State.trace`.
* The objects UMFPACK hands out are named by natural numbers, a new name for every object;
  the null pointer is `0`.
* The Epetra objects of the redistribution (`SerialMap_`, `SerialCrsMatrixA_`,
  `ImportToSerial_`, the serial vectors) appear through what they give the solver: the gathered
  matrix and the views of the serial vectors, which the outside supplies.
* The timers (`ConTime_`, `MatTime_`, ...) and the printed diagnostics have no influence on any
  other member and are left out.
-/

set_option linter.unusedSectionVars false

namespace Amesos

/-! ## Data model -/

/-- What `ExtractMyRowCopy(MyRow, Length, NumEntries, Values, Indices)` hands back: its return
code and the `NumEntries` pairs `(Indices[j], Values[j])` it stored, in storage order. -/
structure RowCopy (V : Type) where
  ierr : Int
  entries : List (Int × V)

/-- The part of the abstract class `Epetra_RowMatrix` that the solver queries. -/
structure Epetra_RowMatrix (V : Type) where
  NumGlobalRows : Nat
  NumGlobalCols : Nat
  NumGlobalNonzeros : Nat
  MaxNumEntries : Nat
  ExtractMyRowCopy : (MyRow : Nat) → (Length : Nat) → RowCopy V

/-- The part of `Epetra_MultiVector` that `Solve` queries: the number of columns and what
`ExtractView` reports (return code and leading dimension). -/
structure Epetra_MultiVector where
  NumVectors : Nat
  ExtractView_ierr : Int
  ExtractView_lda : Nat
deriving DecidableEq, Repr

/-- The `sys` argument of `umfpack_di_solve`. -/
inductive UmfpackRequest where
  | UMFPACK_A
  | UMFPACK_At
deriving DecidableEq, Repr

/-- One outside call of a process. Handles are natural numbers, `0` is the null pointer. -/
inductive Event where
  | umfpack_di_symbolic (status : Int) (handle : Nat)
  | umfpack_di_free_symbolic (handle : Nat)
  | umfpack_di_numeric (status : Int) (handle : Nat)
  | umfpack_di_free_numeric (handle : Nat)
  | umfpack_di_solve (sys : UmfpackRequest) (column : Nat) (status : Int)
  | Broadcast_Rcond
deriving DecidableEq, Repr

/-- What UMFPACK answers to one call: the returned status, whether it stored a new object in
the handle argument (it stores the null pointer otherwise), and `Info[UMFPACK_RCOND]`. -/
structure Reply (V : Type) where
  status : Int
  object : Bool
  rcond : V

/-- The two queries `SetParameters` makes of a `Teuchos::ParameterList`, for each value type. -/
structure ParameterList (V : Type) where
  isParameter : String → Bool
  getBool : String → Bool → Bool
  getInt : String → Int → Int
  getDouble : String → V → V

/-- The outside of one process during one call. `umfpack n` is the reply to a call made when the
process has `n` events behind it, so that every behaviour of the library along a run is some
`umfpack`. `IsLocal` is `IsLocal_` as received from process 0, `Gathered` the matrix that
`Export` and `FillComplete` build in `ConvertToSerial`, `GatheredX` and `GatheredB` the serial
vectors `Solve` allocates when the matrix is not local, `RootRcond` the value process 0 sends
in the broadcast of `GetRcond`. -/
structure Env (V : Type) where
  MyPID : Nat
  Matrix : Epetra_RowMatrix V
  IsLocal : Bool
  Gathered : Epetra_RowMatrix V
  LHS : Option Epetra_MultiVector
  RHS : Option Epetra_MultiVector
  GatheredX : Epetra_MultiVector
  GatheredB : Epetra_MultiVector
  umfpack : Nat → Reply V
  RootRcond : V

/-- The members of `Amesos_Umfpack` on one process, and the ghost `trace`. -/
structure State (V : Type) where
  IsSymbolicFactorizationOK_ : Bool
  IsNumericFactorizationOK_ : Bool
  Symbolic : Nat
  Numeric : Nat
  SerialMatrix_ : Option (Epetra_RowMatrix V)
  UseTranspose_ : Bool
  Rcond_ : V
  RcondValidOnAllProcs_ : Bool
  PrintTiming_ : Bool
  PrintStatus_ : Bool
  AddToDiag_ : V
  ComputeVectorNorms_ : Bool
  ComputeTrueResidual_ : Bool
  verbose_ : Int
  NumSymbolicFact_ : Nat
  NumNumericFact_ : Nat
  NumSolve_ : Nat
  Time_ : Bool
  iam : Nat
  NumGlobalElements_ : Nat
  numentries_ : Nat
  IsLocal_ : Nat
  Ap : List Nat
  Ai : List Int
  Aval : List V
  trace : List Event

/-- How a method ends: it returns a status, or a failed `assert` ends the process. -/
inductive Outcome (V : Type) where
  | ret (status : Int) (s : State V)
  | abort (s : State V)

/-- The state in which the method ended. -/
def Outcome.state {V : Type} : Outcome V → State V
  | .ret _ s => s
  | .abort s => s

/-! ## FormatConverter: `ConvertToUmfpackCRS` -/

section Converter

variable {V : Type} [Add V] [Zero V] [DecidableEq V]

/-- `std::vector::resize(n)`: keep the first `n` elements, fill up with value-initialised ones. -/
def resize {α : Type} (xs : List α) (n : Nat) (fill : α) : List α :=
  xs.take n ++ List.replicate (n - xs.length) fill

/-- The loop `for i < NumEntriesThisRow: if (Indices[i] == MyRow) { Values[i] += AddToDiag_;
break; }` on the extracted row. -/
def addToDiag (MyRow : Nat) (d : V) : List (Int × V) → List (Int × V)
  | [] => []
  | (c, v) :: rest =>
    if c = (MyRow : Int) then (c, v + d) :: rest else (c, v) :: addToDiag MyRow d rest

/-- The loop `for j < NumEntriesThisRow: Ai[Ai_index] = Indices[j]; Aval[Ai_index] = Values[j];
Ai_index++`. Returns `Ai_index`, `Ai`, `Aval`. A store past the end of a vector, undefined in
C++, is dropped. -/
def copyRow : List (Int × V) → Nat → List Int → List V → Nat × List Int × List V
  | [], Ai_index, Ai, Aval => (Ai_index, Ai, Aval)
  | (c, v) :: rest, Ai_index, Ai, Aval =>
    copyRow rest (Ai_index + 1) (Ai.set Ai_index c) (Aval.set Ai_index v)

/-- Modelled from the spec: the macro `AMESOS_CHK_ERR(a)`, defined in a header that is not among
the sources. A non-zero status is returned to the caller of the enclosing method as it is
(`some`); with status `0` the method goes on (`none`). -/
def AMESOS_CHK_ERR (err : Int) : Option Int :=
  if err ≠ 0 then some err else none

/-- Where the row loop of `ConvertToUmfpackCRS` stands; `returned` is the status with which the
method has returned from inside the loop, if it has. -/
structure RowLoop (V : Type) where
  returned : Option Int
  MyRow : Nat
  Ai_index : Nat
  Ap : List Nat
  Ai : List Int
  Aval : List V

/-- The loop `for (MyRow = 0; MyRow < NumGlobalElements_; MyRow++)`, with `todo` rows left. -/
def rowLoop (M : Epetra_RowMatrix V) (NumEntries : Nat) (AddToDiag_ : V) :
    (todo : Nat) → RowLoop V → RowLoop V
  | 0, st => st
  | todo + 1, st =>
    let rc := M.ExtractMyRowCopy st.MyRow NumEntries
    match (if rc.ierr ≠ 0 then AMESOS_CHK_ERR (-1) else none) with
    | some err => { st with returned := some err }
    | none =>
      let row := if AddToDiag_ ≠ 0 then addToDiag st.MyRow AddToDiag_ rc.entries else rc.entries
      let Ap := st.Ap.set st.MyRow st.Ai_index
      let r := copyRow row st.Ai_index st.Ai st.Aval
      rowLoop M NumEntries AddToDiag_ todo
        { returned := none, MyRow := st.MyRow + 1, Ai_index := r.1, Ap := Ap, Ai := r.2.1,
          Aval := r.2.2 }

/-- `Amesos_Umfpack::ConvertToUmfpackCRS`. -/
def ConvertToUmfpackCRS (s : State V) : Outcome V :=
  match s.SerialMatrix_ with
  | none => .abort s
  | some M =>
    if s.NumGlobalElements_ ≠ M.NumGlobalRows then .abort s
    else if s.NumGlobalElements_ ≠ M.NumGlobalCols then .abort s
    else if s.numentries_ ≠ M.NumGlobalNonzeros then .abort s
    else
      let s1 : State V :=
        { s with
          Ap := resize s.Ap (s.NumGlobalElements_ + 1) 0
          Ai := resize s.Ai (max s.NumGlobalElements_ s.numentries_) 0
          Aval := resize s.Aval (max s.NumGlobalElements_ s.numentries_) 0 }
      let NumEntries := M.MaxNumEntries
      if s1.iam = 0 then
        let r := rowLoop M NumEntries s1.AddToDiag_ s1.NumGlobalElements_
          { returned := none, MyRow := 0, Ai_index := 0, Ap := s1.Ap, Ai := s1.Ai,
            Aval := s1.Aval }
        match r.returned with
        | some err => .ret err { s1 with Ap := r.Ap, Ai := r.Ai, Aval := r.Aval }
        | none => .ret 0 { s1 with Ap := r.Ap.set r.MyRow r.Ai_index, Ai := r.Ai, Aval := r.Aval }
      else
        .ret 0 s1

end Converter

/-! ## Redistributor and engine calls -/

section Orchestrator

variable {V : Type} [Add V] [Zero V] [DecidableEq V]

/-- Sequencing of two steps of a method: a failed assertion in the first ends the method. -/
def Outcome.andThen (o : Outcome V) (k : Int → State V → Outcome V) : Outcome V :=
  match o with
  | .ret status s => k status s
  | .abort s => .abort s

/-- `Amesos_Umfpack::ConvertToSerial`. The serial matrix is the matrix of the problem when that
is local and the gathered copy otherwise. -/
def ConvertToSerial (env : Env V) (s : State V) : Outcome V :=
  let s1 : State V :=
    { s with
      iam := env.MyPID
      NumGlobalElements_ := env.Matrix.NumGlobalRows
      numentries_ := env.Matrix.NumGlobalNonzeros }
  if s1.NumGlobalElements_ ≠ env.Matrix.NumGlobalCols then .abort s1
  else
    let s2 : State V := { s1 with IsLocal_ := if env.IsLocal then 1 else 0 }
    if s2.IsLocal_ = 1 then .ret 0 { s2 with SerialMatrix_ := some env.Matrix }
    else .ret 0 { s2 with SerialMatrix_ := some env.Gathered }

/-- The handle UMFPACK stores when the process has `n` events behind it: a new object, named
after the position of the call in the trace, or the null pointer. -/
def newHandle (r : Reply V) (n : Nat) : Nat :=
  if r.object then n + 1 else 0

/-- `Amesos_Umfpack::PerformSymbolicFactorization`. The status of `umfpack_di_symbolic` is
cast to `void`. -/
def PerformSymbolicFactorization (env : Env V) (s : State V) : Outcome V :=
  let s1 : State V :=
    if s.Symbolic ≠ 0 then
      { s with trace := s.trace ++ [.umfpack_di_free_symbolic s.Symbolic], Symbolic := 0 }
    else s
  let s2 : State V :=
    if s1.iam = 0 then
      let r := env.umfpack s1.trace.length
      let h := newHandle r s1.trace.length
      { s1 with trace := s1.trace ++ [.umfpack_di_symbolic r.status h], Symbolic := h }
    else s1
  .ret 0 s2

/-- `Amesos_Umfpack::PerformNumericFactorization`. -/
def PerformNumericFactorization (env : Env V) (s : State V) : Outcome V :=
  let s1 : State V := { s with RcondValidOnAllProcs_ := false }
  if s1.iam = 0 then
    let s2 : State V :=
      if s1.Numeric ≠ 0 then
        { s1 with trace := s1.trace ++ [.umfpack_di_free_numeric s1.Numeric], Numeric := 0 }
      else s1
    let r := env.umfpack s2.trace.length
    let h := newHandle r s2.trace.length
    let status := r.status
    let s3 : State V :=
      { s2 with trace := s2.trace ++ [.umfpack_di_numeric status h], Numeric := h,
                Rcond_ := r.rcond }
    if status ≠ 0 then .abort s3 else .ret 0 s3
  else .ret 0 s1

/-- Modelled from the spec: `Epetra_Comm::Broadcast(&Rcond_, 1, 0)`, not among the sources.
Process 0 keeps its value, every other process receives the value of process 0. -/
def Broadcast (env : Env V) (mine : V) : V :=
  if env.MyPID = 0 then mine else env.RootRcond

/-- `Amesos_Umfpack::GetRcond`: the returned value and the state afterwards. -/
def GetRcond (env : Env V) (s : State V) : V × State V :=
  let s1 : State V :=
    if !s.RcondValidOnAllProcs_ then
      { s with Rcond_ := Broadcast env s.Rcond_, RcondValidOnAllProcs_ := true,
               trace := s.trace ++ [.Broadcast_Rcond] }
    else s
  (s1.Rcond_, s1)

/-- Modelled from the spec: `SetUseTranspose`, defined in the class header, which is not among
the sources. It stores the option. -/
def SetUseTranspose (UseTranspose : Bool) (s : State V) : State V :=
  { s with UseTranspose_ := UseTranspose }

/-- Modelled from the spec: `UseTranspose()`, defined in the class header. -/
def UseTranspose (s : State V) : Bool :=
  s.UseTranspose_

/-- `Amesos_Umfpack::SetParameters`. -/
def SetParameters (ParameterList : ParameterList V) (s : State V) : Outcome V :=
  let s1 := if ParameterList.isParameter "UseTranspose" then
    SetUseTranspose (ParameterList.getBool "UseTranspose" false) s else s
  let s2 := if ParameterList.isParameter "PrintTiming" then
    { s1 with PrintTiming_ := ParameterList.getBool "PrintTiming" false } else s1
  let s3 := if ParameterList.isParameter "PrintStatus" then
    { s2 with PrintStatus_ := ParameterList.getBool "PrintStatus" false } else s2
  let s4 := if ParameterList.isParameter "AddToDiag" then
    { s3 with AddToDiag_ := ParameterList.getDouble "AddToDiag" 0 } else s3
  let s5 := if ParameterList.isParameter "ComputeVectorNorms" then
    { s4 with ComputeVectorNorms_ := ParameterList.getBool "ComputeVectorNorms" false } else s4
  let s6 := if ParameterList.isParameter "ComputeTrueResidual" then
    { s5 with ComputeTrueResidual_ := ParameterList.getBool "ComputeTrueResidual" false }
    else s5
  let s7 := if ParameterList.isParameter "OutputLevel" then
    { s6 with verbose_ := ParameterList.getInt "OutputLevel" 1 } else s6
  .ret 0 s7

/-- A `Teuchos::ParameterList` without entries: a lookup with a default returns the default. -/
def emptyParameterList : ParameterList V where
  isParameter := fun _ => false
  getBool := fun _ d => d
  getInt := fun _ d => d
  getDouble := fun _ d => d

/-- The members the constructor leaves without an initial value. -/
structure Indeterminate where
  iam : Nat
  NumGlobalElements_ : Nat
  numentries_ : Nat
  IsLocal_ : Nat

/-- The constructor `Amesos_Umfpack::Amesos_Umfpack`. -/
def construct (u : Indeterminate) : State V :=
  let s : State V :=
    { IsSymbolicFactorizationOK_ := false
      IsNumericFactorizationOK_ := false
      Symbolic := 0
      Numeric := 0
      SerialMatrix_ := none
      UseTranspose_ := false
      Rcond_ := 0
      RcondValidOnAllProcs_ := true
      PrintTiming_ := false
      PrintStatus_ := false
      AddToDiag_ := 0
      ComputeVectorNorms_ := false
      ComputeTrueResidual_ := false
      verbose_ := 1
      NumSymbolicFact_ := 0
      NumNumericFact_ := 0
      NumSolve_ := 0
      Time_ := false
      iam := u.iam
      NumGlobalElements_ := u.NumGlobalElements_
      numentries_ := u.numentries_
      IsLocal_ := u.IsLocal_
      Ap := []
      Ai := []
      Aval := []
      trace := [] }
  (SetParameters emptyParameterList s).state

/-- The destructor `Amesos_Umfpack::~Amesos_Umfpack`. -/
def destruct (s : State V) : State V :=
  let s1 : State V :=
    if s.Symbolic ≠ 0 then
      { s with trace := s.trace ++ [.umfpack_di_free_symbolic s.Symbolic], Symbolic := 0 }
    else s
  let s2 : State V :=
    if s1.Numeric ≠ 0 then
      { s1 with trace := s1.trace ++ [.umfpack_di_free_numeric s1.Numeric], Numeric := 0 }
    else s1
  s2

/-! ## SolverOrchestrator -/

/-- `Amesos_Umfpack::SymbolicFactorization`. The status of `ConvertToUmfpackCRS` is not looked
at. -/
def SymbolicFactorization (env : Env V) (s : State V) : Outcome V :=
  let s1 : State V :=
    { s with
      IsSymbolicFactorizationOK_ := false
      IsNumericFactorizationOK_ := false
      Time_ := true
      NumSymbolicFact_ := s.NumSymbolicFact_ + 1 }
  (ConvertToSerial env s1).andThen fun _ s2 =>
  (ConvertToUmfpackCRS s2).andThen fun _ s3 =>
  (PerformSymbolicFactorization env s3).andThen fun _ s4 =>
  .ret 0 { s4 with IsSymbolicFactorizationOK_ := false }

/-- `Amesos_Umfpack::NumericFactorization`. -/
def NumericFactorization (env : Env V) (s : State V) : Outcome V :=
  let s1 : State V :=
    { s with
      IsNumericFactorizationOK_ := false
      Time_ := true
      NumNumericFact_ := s.NumNumericFact_ + 1 }
  (ConvertToSerial env s1).andThen fun _ s2 =>
  (ConvertToUmfpackCRS s2).andThen fun _ s3 =>
  (if !s3.IsSymbolicFactorizationOK_ then SymbolicFactorization env s3
   else .ret 0 s3).andThen fun _ s4 =>
  (PerformNumericFactorization env s4).andThen fun _ s5 =>
  .ret 0 { s5 with IsNumericFactorizationOK_ := true }

/-- The loop `for (j = 0; j < NumVectors; j++)` of `Solve` with `todo` columns left: the status
with which `Solve` returns from inside the loop, if it does, and the state. -/
def solveLoop (env : Env V) (sys : UmfpackRequest) :
    (todo : Nat) → (j : Nat) → State V → Option Int × State V
  | 0, _, s => (none, s)
  | todo + 1, j, s =>
    let status := (env.umfpack s.trace.length).status
    let s1 : State V := { s with trace := s.trace ++ [.umfpack_di_solve sys j status] }
    match AMESOS_CHK_ERR status with
    | some err => (some err, s1)
    | none => solveLoop env sys todo (j + 1) s1

/-- The part of `Amesos_Umfpack::Solve` after the factorization check: validation of the
vectors, the serial vectors (with the assertion that `IsLocal_` is `0` when it is not `1`),
the triangular solves. Going on with a null vector would dereference it, which ends the
process. The norms and the residual that `Solve` may print at the end leave the members as
they are. -/
def Solve.vectors (env : Env V) (s : State V) : Outcome V :=
  match env.LHS, env.RHS with
  | some vecX, some vecB =>
    let NumVectors := vecX.NumVectors
    match (if NumVectors ≠ vecB.NumVectors then AMESOS_CHK_ERR (-1) else none) with
    | some err => .ret err s
    | none =>
      if ¬ (s.IsLocal_ = 1 ∨ s.IsLocal_ = 0) then .abort s
      else
        let SerialB := if s.IsLocal_ = 1 then vecB else env.GatheredB
        let SerialX := if s.IsLocal_ = 1 then vecX else env.GatheredX
        let UmfpackRequest :=
          if UseTranspose s then UmfpackRequest.UMFPACK_A else UmfpackRequest.UMFPACK_At
        if s.iam = 0 then
          if SerialB.ExtractView_ierr ≠ 0 then .abort s
          else if SerialX.ExtractView_ierr ≠ 0 then .abort s
          else if SerialB.ExtractView_lda ≠ s.NumGlobalElements_ then .abort s
          else if SerialX.ExtractView_lda ≠ s.NumGlobalElements_ then .abort s
          else
            match solveLoop env UmfpackRequest NumVectors 0 s with
            | (some err, s1) => .ret err s1
            | (none, s1) => .ret 0 s1
        else .ret 0 s
  | _, _ =>
    match AMESOS_CHK_ERR (-1) with
    | some err => .ret err s
    | none => .abort s

/-- The first part of `Amesos_Umfpack::Solve`: the timer, the counter and the factorization
that is run when the numeric factorization is not ready. -/
def Solve.factorize (env : Env V) (s : State V) : Outcome V :=
  let s1 : State V := { s with Time_ := true, NumSolve_ := s.NumSolve_ + 1 }
  if !s1.IsNumericFactorizationOK_ then NumericFactorization env s1 else .ret 0 s1

/-- `Amesos_Umfpack::Solve`. -/
def Solve (env : Env V) (s : State V) : Outcome V :=
  (Solve.factorize env s).andThen fun status s1 =>
    match AMESOS_CHK_ERR status with
    | some err => .ret err s1
    | none => Solve.vectors env s1

/-- The public calls on an instance. -/
inductive Call (V : Type) where
  | SetParameters (ParameterList : ParameterList V)
  | SymbolicFactorization
  | NumericFactorization
  | Solve
  | GetRcond

/-- One public call; `GetRcond`, which returns the estimate, is given status `0`. -/
def Call.run (env : Env V) : Call V → State V → Outcome V
  | .SetParameters pl, s => Amesos.SetParameters pl s
  | .SymbolicFactorization, s => Amesos.SymbolicFactorization env s
  | .NumericFactorization, s => Amesos.NumericFactorization env s
  | .Solve, s => Amesos.Solve env s
  | .GetRcond, s => .ret 0 (Amesos.GetRcond env s).2

/-- The states an instance can be in: after construction and after every public call that
has returned, whatever the outside was during the call. -/
inductive Reachable : State V → Prop where
  | construct (u : Indeterminate) : Reachable (construct u)
  | call (env : Env V) (c : Call V) (s : State V) (status : Int) (s1 : State V) :
      Reachable s → c.run env s = .ret status s1 → Reachable s1

end Orchestrator

/-! ## Vocabulary of the statements -/

section Vocabulary

variable {V : Type} [Add V] [Zero V] [DecidableEq V]

/-- The entries `ConvertToUmfpackCRS` extracts for row `i`. -/
def rowOf (M : Epetra_RowMatrix V) (i : Nat) : List (Int × V) :=
  (M.ExtractMyRowCopy i M.MaxNumEntries).entries

/-- The number of entries extracted for the rows before row `n`. -/
def entriesBefore (M : Epetra_RowMatrix V) (n : Nat) : Nat :=
  ((List.range n).map fun i => (rowOf M i).length).sum

/-- The row handed to the copy loop: the extracted row, after the diagonal loop when the shift
is not zero. -/
def rowOut (M : Epetra_RowMatrix V) (d : V) (i : Nat) : List (Int × V) :=
  if d ≠ 0 then addToDiag i d (rowOf M i) else rowOf M i

/-- Entry `j` of `row` is the first entry of the row whose column index is `i`. -/
def IsFirstDiag (i : Nat) (row : List (Int × V)) (j : Nat) : Prop :=
  (∃ v, row[j]? = some ((i : Int), v)) ∧ ∀ j', j' < j → ∀ v, row[j']? ≠ some ((i : Int), v)

/-- The state in which `ConvertToUmfpackCRS` is entered on the coordinator with the serial
matrix `M`: the assertions of the method hold, every row extraction succeeds, and the rows
hold no more entries than `Ai` and `Aval` are resized to. -/
structure Convertible (s : State V) (M : Epetra_RowMatrix V) : Prop where
  matrix : s.SerialMatrix_ = some M
  coordinator : s.iam = 0
  rows : s.NumGlobalElements_ = M.NumGlobalRows
  cols : s.NumGlobalElements_ = M.NumGlobalCols
  nonzeros : s.numentries_ = M.NumGlobalNonzeros
  extracted : ∀ i, i < M.NumGlobalRows → (M.ExtractMyRowCopy i M.MaxNumEntries).ierr = 0
  capacity : entriesBefore M M.NumGlobalRows ≤ max M.NumGlobalRows M.NumGlobalNonzeros

/-- The first two steps of both factorization methods: `ConvertToSerial`, then
`ConvertToUmfpackCRS`. -/
def gatherConvert (env : Env V) (s : State V) : Outcome V :=
  (ConvertToSerial env s).andThen fun _ s2 => ConvertToUmfpackCRS s2

/-- The members after a `ConvertToSerial` whose assertion holds. -/
def afterSerial (env : Env V) (s : State V) : State V :=
  { s with iam := env.MyPID, NumGlobalElements_ := env.Matrix.NumGlobalRows,
           numentries_ := env.Matrix.NumGlobalNonzeros,
           IsLocal_ := if env.IsLocal then 1 else 0,
           SerialMatrix_ := some (if env.IsLocal then env.Matrix else env.Gathered) }

/-- State `s1` differs from `s` at most in the members that `ConvertToSerial` and
`ConvertToUmfpackCRS` write. -/
def Frame (s s1 : State V) : Prop :=
  ∃ iam N ne loc SM Ap Ai Aval, s1 =
    { s with iam := iam, NumGlobalElements_ := N, numentries_ := ne, IsLocal_ := loc,
             SerialMatrix_ := SM, Ap := Ap, Ai := Ai, Aval := Aval }

/-- The assertions of `ConvertToSerial` and `ConvertToUmfpackCRS` hold for the matrices of
`env`: the matrix is square and a gathered copy has its dimensions and entry count. -/
def MatrixOK (env : Env V) : Prop :=
  env.Matrix.NumGlobalRows = env.Matrix.NumGlobalCols ∧
  (env.IsLocal = false →
    env.Gathered.NumGlobalRows = env.Matrix.NumGlobalRows ∧
    env.Gathered.NumGlobalCols = env.Matrix.NumGlobalRows ∧
    env.Gathered.NumGlobalNonzeros = env.Matrix.NumGlobalNonzeros)

/-- The members as `SymbolicFactorization` sets them before it gathers the matrix. -/
def symbolicEntry (s : State V) : State V :=
  { s with IsSymbolicFactorizationOK_ := false, IsNumericFactorizationOK_ := false,
           Time_ := true, NumSymbolicFact_ := s.NumSymbolicFact_ + 1 }

/-- The members as `NumericFactorization` sets them before it gathers the matrix. -/
def numericEntry (s : State V) : State V :=
  { s with IsNumericFactorizationOK_ := false, Time_ := true,
           NumNumericFact_ := s.NumNumericFact_ + 1 }

/-- The members as `Solve` sets them before the factorization check. -/
def solveEntry (s : State V) : State V :=
  { s with Time_ := true, NumSolve_ := s.NumSolve_ + 1 }

/-- The solution or the right-hand side is null, or their numbers of columns differ. -/
def VectorsInvalid (env : Env V) : Prop :=
  env.LHS = none ∨ env.RHS = none ∨
    ∃ X B, env.LHS = some X ∧ env.RHS = some B ∧ X.NumVectors ≠ B.NumVectors

/-- The event is a triangular solve. -/
def Event.isSolve : Event → Bool
  | .umfpack_di_solve _ _ _ => true
  | _ => false

/-- Trace `t1` is `t` followed by events that all satisfy `p`. -/
def Extends (p : Event → Prop) (t t1 : List Event) : Prop :=
  ∃ added, t1 = t ++ added ∧ ∀ e ∈ added, p e

/-- The triangular solves for the columns `j`, ..., `j + m - 1`, issued one after the other by
a process with `n` events behind it, each with the status the library reports. -/
def solveEvents (env : Env V) (sys : UmfpackRequest) (n j m : Nat) : List Event :=
  (List.range m).map fun i => .umfpack_di_solve sys (j + i) (env.umfpack (n + i)).status

/-- State `s1` enters the solve loop of `Solve` on the coordinator with vectors of `k` columns:
both vectors exist and have `k` columns, and the assertions on `IsLocal_` and on the views of
the serial vectors hold. -/
def ReachesSolve (env : Env V) (s1 : State V) (k : Nat) : Prop :=
  ∃ X B, env.LHS = some X ∧ env.RHS = some B ∧ X.NumVectors = k ∧ B.NumVectors = k ∧
    (s1.IsLocal_ = 1 ∨ s1.IsLocal_ = 0) ∧ s1.iam = 0 ∧
    (if s1.IsLocal_ = 1 then B else env.GatheredB).ExtractView_ierr = 0 ∧
    (if s1.IsLocal_ = 1 then X else env.GatheredX).ExtractView_ierr = 0 ∧
    (if s1.IsLocal_ = 1 then B else env.GatheredB).ExtractView_lda = s1.NumGlobalElements_ ∧
    (if s1.IsLocal_ = 1 then X else env.GatheredX).ExtractView_lda = s1.NumGlobalElements_

/-- The request `Solve` passes to `umfpack_di_solve`. -/
def requestOf (s : State V) : UmfpackRequest :=
  if UseTranspose s then .UMFPACK_A else .UMFPACK_At

/-- States `s` and `s1` agree on the flags, the counters, the options and the members that
describe the gathered problem; the handles, the estimate and the trace may differ. -/
structure SameControl (s s1 : State V) : Prop where
  symbolicOK : s1.IsSymbolicFactorizationOK_ = s.IsSymbolicFactorizationOK_
  numericOK : s1.IsNumericFactorizationOK_ = s.IsNumericFactorizationOK_
  useTranspose : s1.UseTranspose_ = s.UseTranspose_
  numSymbolic : s1.NumSymbolicFact_ = s.NumSymbolicFact_
  numNumeric : s1.NumNumericFact_ = s.NumNumericFact_
  numSolve : s1.NumSolve_ = s.NumSolve_
  iam : s1.iam = s.iam
  rows : s1.NumGlobalElements_ = s.NumGlobalElements_
  isLocal : s1.IsLocal_ = s.IsLocal_

/-- The library reports status `0` at every call. -/
def EngineOK (env : Env V) : Prop :=
  ∀ n, (env.umfpack n).status = 0

/-- The vectors of `env` pass the checks of `Solve` on a process of rank `iam` whose matrix
has `N` rows and is local when `loc = 1`: both exist, they have the same number of columns,
and on the coordinator the assertions on the views of the serial vectors hold. -/
def VectorsOK (env : Env V) (iam loc N : Nat) : Prop :=
  ∃ X B, env.LHS = some X ∧ env.RHS = some B ∧ X.NumVectors = B.NumVectors ∧
    (iam = 0 →
      (if loc = 1 then B else env.GatheredB).ExtractView_ierr = 0 ∧
      (if loc = 1 then X else env.GatheredX).ExtractView_ierr = 0 ∧
      (if loc = 1 then B else env.GatheredB).ExtractView_lda = N ∧
      (if loc = 1 then X else env.GatheredX).ExtractView_lda = N)

/-- The members that `SetParameters` leaves alone and that the statements below speak of. -/
structure EngineView (V : Type) where
  symbolicOK : Bool
  numericOK : Bool
  Symbolic : Nat
  Numeric : Nat
  trace : List Event
  Rcond_ : V
  rcondValid : Bool
  numSymbolic : Nat
  numNumeric : Nat
  numSolve : Nat
  isLocal : Nat

/-- The engine view of a state. -/
def State.view (s : State V) : EngineView V where
  symbolicOK := s.IsSymbolicFactorizationOK_
  numericOK := s.IsNumericFactorizationOK_
  Symbolic := s.Symbolic
  Numeric := s.Numeric
  trace := s.trace
  Rcond_ := s.Rcond_
  rcondValid := s.RcondValidOnAllProcs_
  numSymbolic := s.NumSymbolicFact_
  numNumeric := s.NumNumericFact_
  numSolve := s.NumSolve_
  isLocal := s.IsLocal_

/-- The event is a call of `umfpack_di_symbolic`. -/
def Event.isSymbolic : Event → Bool
  | .umfpack_di_symbolic _ _ => true
  | _ => false

/-- The event is a call of `umfpack_di_numeric`. -/
def Event.isNumeric : Event → Bool
  | .umfpack_di_numeric _ _ => true
  | _ => false

/-- The symbolic object a call of the library hands out, if it hands out one. -/
def Event.obtainsSymbolic : Event → Option Nat
  | .umfpack_di_symbolic _ h => if h = 0 then none else some h
  | _ => none

/-- The symbolic object a call of the library releases, if it releases one. -/
def Event.releasesSymbolic : Event → Option Nat
  | .umfpack_di_free_symbolic h => some h
  | _ => none

/-- The numeric object a call of the library hands out, if it hands out one. -/
def Event.obtainsNumeric : Event → Option Nat
  | .umfpack_di_numeric _ h => if h = 0 then none else some h
  | _ => none

/-- The numeric object a call of the library releases, if it releases one. -/
def Event.releasesNumeric : Event → Option Nat
  | .umfpack_di_free_numeric h => some h
  | _ => none

/-- The object a handle holds: none for the null pointer. -/
def liveOf (h : Nat) : List Nat :=
  if h = 0 then [] else [h]

/-- After the events `p`, the objects handed out so far are, in this order, the objects
released so far followed by at most one object that is still live, and no object was handed
out twice. So every release is the release of the one object that is live and no object is
released twice. -/
def Ledger (ob rel : Event → Option Nat) (p : List Event) : Prop :=
  (∃ live : List Nat, live.length ≤ 1 ∧ p.filterMap ob = p.filterMap rel ++ live) ∧
    (p.filterMap ob).Nodup

/-- At every moment of the trace `t` the ledgers of the symbolic and of the numeric objects
are in order. -/
def HandlesOK (t : List Event) : Prop :=
  ∀ p, p <+: t → Ledger Event.obtainsSymbolic Event.releasesSymbolic p ∧
    Ledger Event.obtainsNumeric Event.releasesNumeric p

/-- After the trace `t` every object handed out has been released. -/
def AllReleased (t : List Event) : Prop :=
  t.filterMap Event.obtainsSymbolic = t.filterMap Event.releasesSymbolic ∧
  t.filterMap Event.obtainsNumeric = t.filterMap Event.releasesNumeric

/-- The ledger of one kind of object is in order at every moment of `t`, the handle `h` holds
the object that is live after `t`, and the names of the objects handed out are bounded by
the length of `t`. -/
def KindInv (ob rel : Event → Option Nat) (t : List Event) (h : Nat) : Prop :=
  (∀ p, p <+: t → Ledger ob rel p) ∧ t.filterMap ob = t.filterMap rel ++ liveOf h ∧
    ∀ x ∈ t.filterMap ob, x ≤ t.length

/-- The handles of a state agree with its trace. -/
def HandleInv (s : State V) : Prop :=
  KindInv Event.obtainsSymbolic Event.releasesSymbolic s.trace s.Symbolic ∧
  KindInv Event.obtainsNumeric Event.releasesNumeric s.trace s.Numeric

/-- The outside of the process of rank `pid` during a collective `GetRcond` in which process 0
sends `root`. -/
def commEnv (base : Env V) (pid : Nat) (root : V) : Env V :=
  { base with MyPID := pid, RootRcond := root }

/-- The processes of ranks `pid`, `pid + 1`, ... call `GetRcond` while process 0 sends `root`:
what each of them returns and the state it is left in. -/
def gatherRcond (base : Env V) (root : V) : Nat → List (State V) → List (V × State V)
  | _, [] => []
  | pid, s :: rest => GetRcond (commEnv base pid root) s :: gatherRcond base root (pid + 1) rest

/-- All processes call `GetRcond` together; the list holds the state of the process of rank
`i` at position `i`, and what process 0 sends in the broadcast is its own `Rcond_`. -/
def GetRcondAll (base : Env V) : List (State V) → List (V × State V)
  | [] => []
  | root :: rest => gatherRcond base root.Rcond_ 0 (root :: rest)

/-- The call is a `GetRcond`. -/
def Call.isGetRcond : Call V → Bool
  | .GetRcond => true
  | _ => false

/-- The members of a state other than the seven options `SetParameters` may write, the options
being put to fixed values: two states have the same rest exactly when they differ in these
options at most. -/
def State.rest (s : State V) : State V :=
  { s with UseTranspose_ := false, PrintTiming_ := false, PrintStatus_ := false,
           AddToDiag_ := 0, ComputeVectorNorms_ := false, ComputeTrueResidual_ := false,
           verbose_ := 0 }

/-- The keys `SetParameters` looks up. -/
def recognizedKeys : List String :=
  ["UseTranspose", "PrintTiming", "PrintStatus", "AddToDiag", "ComputeVectorNorms",
   "ComputeTrueResidual", "OutputLevel"]

end Vocabulary

/-! ## Sample data -/

/-- A serial matrix over the integers with the given rows, square, whose row extraction fails
with `-2` when the buffer length is less than the number of entries of the row. -/
def sampleMatrix (rows : List (List (Int × Int))) (MaxNumEntries : Nat) : Epetra_RowMatrix Int where
  NumGlobalRows := rows.length
  NumGlobalCols := rows.length
  NumGlobalNonzeros := (rows.map List.length).sum
  MaxNumEntries := MaxNumEntries
  ExtractMyRowCopy := fun MyRow Length =>
    if Length < (rows.getD MyRow []).length then ⟨-2, []⟩ else ⟨0, rows.getD MyRow []⟩

/-- Three rows: a diagonal entry and an off-diagonal one; no diagonal entry; the diagonal
entry twice. -/
def matrixA : Epetra_RowMatrix Int :=
  sampleMatrix [[(0, 5), (1, 7)], [(0, 1)], [(2, 3), (2, 4)]] 2

/-- Two rows, the first longer than the declared maximum of one entry per row. -/
def matrixB : Epetra_RowMatrix Int :=
  sampleMatrix [[(0, 1), (1, 2)], [(1, 3)]] 1

/-- A multi-vector of `k` columns whose view has leading dimension `n`. -/
def sampleVector (k n : Nat) : Epetra_MultiVector :=
  { NumVectors := k, ExtractView_ierr := 0, ExtractView_lda := n }

/-- The outside of process `pid` for the local matrix `M`, vectors of two columns, and a
library that answers every call as `umfpack` says. -/
def sampleEnv (pid : Nat) (M : Epetra_RowMatrix Int) (umfpack : Nat → Reply Int) : Env Int where
  MyPID := pid
  Matrix := M
  IsLocal := true
  Gathered := M
  LHS := some (sampleVector 2 M.NumGlobalRows)
  RHS := some (sampleVector 2 M.NumGlobalRows)
  GatheredX := sampleVector 2 M.NumGlobalRows
  GatheredB := sampleVector 2 M.NumGlobalRows
  umfpack := umfpack
  RootRcond := 0

/-- A library that succeeds at every call, producing an object and the estimate `7`. -/
def umfpackOk : Nat → Reply Int :=
  fun _ => { status := 0, object := true, rcond := 7 }

/-- The members after construction, with zero for the members the constructor leaves alone. -/
def fresh : State Int :=
  construct { iam := 0, NumGlobalElements_ := 0, numentries_ := 0, IsLocal_ := 0 }

/-- The state in which the coordinator enters `ConvertToUmfpackCRS` for `matrixA`, with
diagonal shift `d`. -/
def enterA (d : Int) : State Int :=
  (ConvertToSerial (sampleEnv 0 matrixA umfpackOk) { fresh with AddToDiag_ := d }).state

/-- The outside of the coordinator for `matrixA` when the solution vector is null. -/
def envNullLHS : Env Int :=
  { sampleEnv 0 matrixA umfpackOk with LHS := none }

/-- A library that reports `status`, and stores no object, at the call made with `n` events
behind, and succeeds at every other call. -/
def umfpackFailAt (n : Nat) (status : Int) : Nat → Reply Int :=
  fun i => if i = n then { status := status, object := false, rcond := 0 } else umfpackOk i

/-- The state of the coordinator after a `Solve` from the constructed state, with the sample
matrix and a library that succeeds. -/
def solvedA : State Int :=
  (Solve (sampleEnv 0 matrixA umfpackOk) fresh).state

/-- The state of the process of rank `pid` after a `NumericFactorization` from the constructed
state, with the sample matrix and a library that succeeds. -/
def factoredA (pid : Nat) : State Int :=
  (NumericFactorization (sampleEnv pid matrixA umfpackOk) fresh).state

/-- The value of an entry of a sample parameter list. -/
inductive ParameterEntry where
  | bool (b : Bool)
  | int (i : Int)
  | double (d : Int)

/-- A parameter list over the integers that holds the given entries: a key is a parameter
when an entry has it, and a lookup returns the value of the first entry with the key when
that value has the type asked for, the default otherwise. -/
def sampleList (entries : List (String × ParameterEntry)) : ParameterList Int where
  isParameter := fun key => (entries.lookup key).isSome
  getBool := fun key d =>
    match entries.lookup key with
    | some (.bool b) => b
    | _ => d
  getInt := fun key d =>
    match entries.lookup key with
    | some (.int i) => i
    | _ => d
  getDouble := fun key d =>
    match entries.lookup key with
    | some (.double x) => x
    | _ => d

/-- A list with three recognized keys and one key `SetParameters` does not know. -/
def listA : ParameterList Int :=
  sampleList [("PrintTiming", .bool true), ("AddToDiag", .double 2), ("MaxProcs", .int 4),
    ("OutputLevel", .int 2)]

/-- A list that holds only keys `SetParameters` does not know. -/
def listB : ParameterList Int :=
  sampleList [("MaxProcs", .int 4), ("Redistribute", .bool true)]

/-- The list `listA` without the key `SetParameters` does not know. -/
def listC : ParameterList Int :=
  sampleList [("PrintTiming", .bool true), ("AddToDiag", .double 2), ("OutputLevel", .int 2)]

/-! ## Facts about the converter -/

section ConverterFacts

variable {V : Type} [Add V] [Zero V] [DecidableEq V]

theorem resize_length {α : Type} (xs : List α) (n : Nat) (fill : α) :
    (resize xs n fill).length = n := by
  simp [resize]
  omega

theorem entriesBefore_zero (M : Epetra_RowMatrix V) : entriesBefore M 0 = 0 := by
  simp [entriesBefore]

theorem entriesBefore_succ (M : Epetra_RowMatrix V) (n : Nat) :
    entriesBefore M (n + 1) = entriesBefore M n + (rowOf M n).length := by
  simp [entriesBefore, List.range_succ, List.sum_append]

theorem entriesBefore_mono (M : Epetra_RowMatrix V) {a b : Nat} (h : a ≤ b) :
    entriesBefore M a ≤ entriesBefore M b := by
  induction b with
  | zero =>
    have : a = 0 := by omega
    subst this
    exact Nat.le_refl _
  | succ b ih =>
    rcases Nat.eq_or_lt_of_le h with h1 | h1
    · subst h1
      exact Nat.le_refl _
    · have := ih (by omega)
      rw [entriesBefore_succ]
      omega

theorem addToDiag_length (i : Nat) (d : V) (row : List (Int × V)) :
    (addToDiag i d row).length = row.length := by
  induction row with
  | nil => rfl
  | cons e rest ih =>
    obtain ⟨c, v⟩ := e
    by_cases h : c = (i : Int) <;> simp [addToDiag, h, ih]

theorem rowOut_length (M : Epetra_RowMatrix V) (d : V) (i : Nat) :
    (rowOut M d i).length = (rowOf M i).length := by
  unfold rowOut
  split
  · exact addToDiag_length _ _ _
  · rfl

theorem copyRow_index (row : List (Int × V)) (k : Nat) (Ai : List Int) (Aval : List V) :
    (copyRow row k Ai Aval).1 = k + row.length := by
  induction row generalizing k Ai Aval with
  | nil => rfl
  | cons e rest ih =>
    obtain ⟨c, v⟩ := e
    simp only [copyRow, ih, List.length_cons]
    omega

theorem copyRow_length (row : List (Int × V)) (k : Nat) (Ai : List Int) (Aval : List V) :
    (copyRow row k Ai Aval).2.1.length = Ai.length ∧
      (copyRow row k Ai Aval).2.2.length = Aval.length := by
  induction row generalizing k Ai Aval with
  | nil => exact ⟨rfl, rfl⟩
  | cons e rest ih =>
    obtain ⟨c, v⟩ := e
    simp only [copyRow]
    have := ih (k + 1) (Ai.set k c) (Aval.set k v)
    simpa using this

theorem copyRow_below (row : List (Int × V)) (k : Nat) (Ai : List Int) (Aval : List V)
    (p : Nat) (hp : p < k) :
    (copyRow row k Ai Aval).2.1[p]? = Ai[p]? ∧ (copyRow row k Ai Aval).2.2[p]? = Aval[p]? := by
  induction row generalizing k Ai Aval with
  | nil => exact ⟨rfl, rfl⟩
  | cons e rest ih =>
    obtain ⟨c, v⟩ := e
    simp only [copyRow]
    have h := ih (k + 1) (Ai.set k c) (Aval.set k v) (by omega)
    have hne : k ≠ p := by omega
    rw [h.1, h.2, List.getElem?_set_ne hne, List.getElem?_set_ne hne]
    exact ⟨rfl, rfl⟩

theorem copyRow_get (row : List (Int × V)) (k : Nat) (Ai : List Int) (Aval : List V)
    (j : Nat) (c : Int) (v : V) (hj : row[j]? = some (c, v))
    (hAi : k + j < Ai.length) (hAval : k + j < Aval.length) :
    (copyRow row k Ai Aval).2.1[k + j]? = some c ∧
      (copyRow row k Ai Aval).2.2[k + j]? = some v := by
  induction row generalizing k Ai Aval j with
  | nil => simp at hj
  | cons e rest ih =>
    obtain ⟨c0, v0⟩ := e
    simp only [copyRow]
    cases j with
    | zero =>
      simp only [List.getElem?_cons_zero, Option.some.injEq, Prod.mk.injEq] at hj
      obtain ⟨rfl, rfl⟩ := hj
      have h := copyRow_below rest (k + 1) (Ai.set k c0) (Aval.set k v0) k (by omega)
      simp only [Nat.add_zero] at hAi hAval ⊢
      rw [h.1, h.2]
      exact ⟨List.getElem?_set_self hAi, List.getElem?_set_self hAval⟩
    | succ j =>
      rw [List.getElem?_cons_succ] at hj
      have h := ih (k + 1) (Ai.set k c0) (Aval.set k v0) j hj
        (by rw [List.length_set]; omega) (by rw [List.length_set]; omega)
      have e : k + (j + 1) = k + 1 + j := by omega
      rw [e]
      exact h

/-- What the row loop has done after `todo` rows whose extractions all succeed, when it starts
at a row whose offset is the current `Ai_index` and the vectors are long enough. -/
theorem rowLoop_spec (M : Epetra_RowMatrix V) (d : V) (todo : Nat) (st : RowLoop V)
    (hret : st.returned = none)
    (hidx : st.Ai_index = entriesBefore M st.MyRow)
    (hok : ∀ i, st.MyRow ≤ i → i < st.MyRow + todo →
      (M.ExtractMyRowCopy i M.MaxNumEntries).ierr = 0)
    (hAp : st.MyRow + todo < st.Ap.length)
    (hAi : entriesBefore M (st.MyRow + todo) ≤ st.Ai.length)
    (hAval : entriesBefore M (st.MyRow + todo) ≤ st.Aval.length) :
    (rowLoop M M.MaxNumEntries d todo st).returned = none ∧
    (rowLoop M M.MaxNumEntries d todo st).MyRow = st.MyRow + todo ∧
    (rowLoop M M.MaxNumEntries d todo st).Ai_index = entriesBefore M (st.MyRow + todo) ∧
    (rowLoop M M.MaxNumEntries d todo st).Ap.length = st.Ap.length ∧
    (rowLoop M M.MaxNumEntries d todo st).Ai.length = st.Ai.length ∧
    (rowLoop M M.MaxNumEntries d todo st).Aval.length = st.Aval.length ∧
    (∀ p, p < st.MyRow → (rowLoop M M.MaxNumEntries d todo st).Ap[p]? = st.Ap[p]?) ∧
    (∀ i, st.MyRow ≤ i → i < st.MyRow + todo →
      (rowLoop M M.MaxNumEntries d todo st).Ap[i]? = some (entriesBefore M i)) ∧
    (∀ p, p < st.Ai_index →
      (rowLoop M M.MaxNumEntries d todo st).Ai[p]? = st.Ai[p]? ∧
      (rowLoop M M.MaxNumEntries d todo st).Aval[p]? = st.Aval[p]?) ∧
    (∀ i, st.MyRow ≤ i → i < st.MyRow + todo → ∀ j c v, (rowOut M d i)[j]? = some (c, v) →
      (rowLoop M M.MaxNumEntries d todo st).Ai[entriesBefore M i + j]? = some c ∧
      (rowLoop M M.MaxNumEntries d todo st).Aval[entriesBefore M i + j]? = some v) := by
  induction todo generalizing st with
  | zero =>
    refine ⟨hret, rfl, ?_, rfl, rfl, rfl, fun _ _ => rfl, ?_, fun _ _ => ⟨rfl, rfl⟩, ?_⟩
    · simpa [rowLoop] using hidx
    · intro i h1 h2
      omega
    · intro i h1 h2
      omega
  | succ todo ih =>
    have h0 : (M.ExtractMyRowCopy st.MyRow M.MaxNumEntries).ierr = 0 :=
      hok st.MyRow (Nat.le_refl _) (by omega)
    have hstep : rowLoop M M.MaxNumEntries d (todo + 1) st =
        rowLoop M M.MaxNumEntries d todo
          { returned := none, MyRow := st.MyRow + 1,
            Ai_index := (copyRow (rowOut M d st.MyRow) st.Ai_index st.Ai st.Aval).1,
            Ap := st.Ap.set st.MyRow st.Ai_index,
            Ai := (copyRow (rowOut M d st.MyRow) st.Ai_index st.Ai st.Aval).2.1,
            Aval := (copyRow (rowOut M d st.MyRow) st.Ai_index st.Ai st.Aval).2.2 } := by
      simp [rowLoop, h0, rowOut, rowOf]
    rw [hstep]
    have hlen := copyRow_length (rowOut M d st.MyRow) st.Ai_index st.Ai st.Aval
    have hk := copyRow_index (rowOut M d st.MyRow) st.Ai_index st.Ai st.Aval
    have hsucc := entriesBefore_succ M st.MyRow
    have hmono := entriesBefore_mono M (show st.MyRow + 1 ≤ st.MyRow + (todo + 1) by omega)
    have e1 : st.MyRow + 1 + todo = st.MyRow + (todo + 1) := by omega
    obtain ⟨r1, r2, r3, r4, r5, r6, r7, r8, r9, r10⟩ :=
      ih { returned := none, MyRow := st.MyRow + 1,
           Ai_index := (copyRow (rowOut M d st.MyRow) st.Ai_index st.Ai st.Aval).1,
           Ap := st.Ap.set st.MyRow st.Ai_index,
           Ai := (copyRow (rowOut M d st.MyRow) st.Ai_index st.Ai st.Aval).2.1,
           Aval := (copyRow (rowOut M d st.MyRow) st.Ai_index st.Ai st.Aval).2.2 }
        rfl
        (by
          show (copyRow (rowOut M d st.MyRow) st.Ai_index st.Ai st.Aval).1 =
            entriesBefore M (st.MyRow + 1)
          rw [hk, rowOut_length, hsucc, hidx])
        (fun i h1 h2 => hok i (by simp only at h1; omega) (by simp only at h2; omega))
        (by simp only [List.length_set]; omega)
        (by simp only [hlen.1, e1]; exact hAi)
        (by simp only [hlen.2, e1]; exact hAval)
    simp only [List.length_set, hlen.1, hlen.2, e1] at r2 r3 r4 r5 r6 r7 r8 r9 r10
    refine ⟨r1, r2, r3, r4, r5, r6, ?_, ?_, ?_, ?_⟩
    · intro p hp
      rw [r7 p (by omega), List.getElem?_set_ne (by omega)]
    · intro i h1 h2
      rcases Nat.eq_or_lt_of_le h1 with h3 | h3
      · subst h3
        rw [r7 st.MyRow (by omega), List.getElem?_set_self (by omega), hidx]
      · exact r8 i (by omega) h2
    · intro p hp
      have hb := copyRow_below (rowOut M d st.MyRow) st.Ai_index st.Ai st.Aval p hp
      have hp2 : p < (copyRow (rowOut M d st.MyRow) st.Ai_index st.Ai st.Aval).1 := by
        rw [hk]
        omega
      have := r9 p hp2
      rw [this.1, this.2]
      exact hb
    · intro i h1 h2 j c v hj
      rcases Nat.eq_or_lt_of_le h1 with h3 | h3
      · subst h3
        have hjlt : j < (rowOf M st.MyRow).length := by
          have := (List.getElem?_eq_some.1 hj).1
          rwa [rowOut_length] at this
        have hp2 : entriesBefore M st.MyRow + j <
            (copyRow (rowOut M d st.MyRow) st.Ai_index st.Ai st.Aval).1 := by
          rw [hk, rowOut_length, hidx]
          omega
        have := r9 _ hp2
        rw [this.1, this.2, ← hidx]
        exact copyRow_get _ _ _ _ j c v hj (by omega) (by omega)
      · exact r10 i (by omega) h2 j c v hj

theorem addToDiag_get (i : Nat) (d : V) (row : List (Int × V)) (j : Nat) (c : Int) (v : V)
    (h : row[j]? = some (c, v)) :
    (IsFirstDiag i row j → (addToDiag i d row)[j]? = some (c, v + d)) ∧
      (¬ IsFirstDiag i row j → (addToDiag i d row)[j]? = some (c, v)) := by
  induction row generalizing j with
  | nil => simp at h
  | cons e rest ih =>
    obtain ⟨c0, v0⟩ := e
    by_cases hc : c0 = (i : Int)
    · cases j with
      | zero =>
        simp only [List.getElem?_cons_zero, Option.some.injEq, Prod.mk.injEq] at h
        obtain ⟨rfl, rfl⟩ := h
        refine ⟨fun _ => by simp [addToDiag, hc], fun hn => ?_⟩
        exact absurd ⟨⟨v0, by simp [hc]⟩, fun j' hj' => absurd hj' (Nat.not_lt_zero _)⟩ hn
      | succ j =>
        refine ⟨fun hf => ?_, fun _ => ?_⟩
        · exact absurd (by simp [hc]) (hf.2 0 (Nat.succ_pos _) v0)
        · simpa [addToDiag, hc] using h
    · cases j with
      | zero =>
        simp only [List.getElem?_cons_zero, Option.some.injEq, Prod.mk.injEq] at h
        obtain ⟨rfl, rfl⟩ := h
        refine ⟨fun hf => ?_, fun _ => by simp [addToDiag, hc]⟩
        obtain ⟨w, hw⟩ := hf.1
        simp only [List.getElem?_cons_zero, Option.some.injEq, Prod.mk.injEq] at hw
        exact absurd hw.1 hc
      | succ j =>
        rw [List.getElem?_cons_succ] at h
        have hiff : IsFirstDiag i ((c0, v0) :: rest) (j + 1) ↔ IsFirstDiag i rest j := by
          constructor
          · intro hf
            refine ⟨by simpa using hf.1, fun j' hj' w => ?_⟩
            have := hf.2 (j' + 1) (by omega) w
            simpa using this
          · intro hf
            refine ⟨by simpa using hf.1, fun j' hj' w => ?_⟩
            cases j' with
            | zero =>
              simp only [List.getElem?_cons_zero, ne_eq, Option.some.injEq, Prod.mk.injEq,
                not_and]
              exact fun h1 => absurd h1 hc
            | succ j' =>
              have := hf.2 j' (by omega) w
              simpa using this
        have := ih j h
        simp only [addToDiag, hc, if_false, List.getElem?_cons_succ, hiff]
        exact this

theorem addToDiag_columns (i : Nat) (d : V) (row : List (Int × V)) :
    (addToDiag i d row).map Prod.fst = row.map Prod.fst := by
  induction row with
  | nil => rfl
  | cons e rest ih =>
    obtain ⟨c, v⟩ := e
    by_cases h : c = (i : Int) <;> simp [addToDiag, h, ih]

/-- The column indices and the index that the copy loop produces depend on the column indices
of the row only. -/
theorem copyRow_columns (row row1 : List (Int × V)) (k : Nat) (Ai : List Int)
    (Aval Aval1 : List V) (h : row.map Prod.fst = row1.map Prod.fst) :
    (copyRow row k Ai Aval).1 = (copyRow row1 k Ai Aval1).1 ∧
      (copyRow row k Ai Aval).2.1 = (copyRow row1 k Ai Aval1).2.1 := by
  induction row generalizing row1 k Ai Aval Aval1 with
  | nil =>
    cases row1 with
    | nil => exact ⟨rfl, rfl⟩
    | cons e rest => simp at h
  | cons e rest ih =>
    cases row1 with
    | nil => simp at h
    | cons e1 rest1 =>
      obtain ⟨c, v⟩ := e
      obtain ⟨c1, v1⟩ := e1
      simp only [List.map_cons, List.cons.injEq] at h
      obtain ⟨hc, hrest⟩ := h
      subst hc
      simp only [copyRow]
      exact ih rest1 (k + 1) (Ai.set k c) (Aval.set k v) (Aval1.set k v1) hrest

/-- The row loop run with a shift and run without one end at the same row, with the same
`Ai_index`, row starts and column indices, and return alike. -/
theorem rowLoop_columns (M : Epetra_RowMatrix V) (NumEntries : Nat) (d : V) (todo : Nat)
    (st st1 : RowLoop V) (hret : st.returned = st1.returned) (hrow : st.MyRow = st1.MyRow)
    (hidx : st.Ai_index = st1.Ai_index) (hAp : st.Ap = st1.Ap) (hAi : st.Ai = st1.Ai) :
    (rowLoop M NumEntries d todo st).returned = (rowLoop M NumEntries 0 todo st1).returned ∧
    (rowLoop M NumEntries d todo st).MyRow = (rowLoop M NumEntries 0 todo st1).MyRow ∧
    (rowLoop M NumEntries d todo st).Ai_index = (rowLoop M NumEntries 0 todo st1).Ai_index ∧
    (rowLoop M NumEntries d todo st).Ap = (rowLoop M NumEntries 0 todo st1).Ap ∧
    (rowLoop M NumEntries d todo st).Ai = (rowLoop M NumEntries 0 todo st1).Ai := by
  induction todo generalizing st st1 with
  | zero => exact ⟨hret, hrow, hidx, hAp, hAi⟩
  | succ todo ih =>
    by_cases h0 : (M.ExtractMyRowCopy st.MyRow NumEntries).ierr = 0
    · have h1 : (M.ExtractMyRowCopy st1.MyRow NumEntries).ierr = 0 := hrow ▸ h0
      have hcols : (if d ≠ 0 then addToDiag st.MyRow d (M.ExtractMyRowCopy st.MyRow NumEntries).entries
            else (M.ExtractMyRowCopy st.MyRow NumEntries).entries).map Prod.fst =
          ((M.ExtractMyRowCopy st1.MyRow NumEntries).entries).map Prod.fst := by
        rw [← hrow]
        split
        · exact addToDiag_columns _ _ _
        · rfl
      have hc := copyRow_columns _ _ st.Ai_index st.Ai st.Aval st1.Aval hcols
      simp only [rowLoop, h0, h1, ne_eq, not_true_eq_false, if_false]
      apply ih
      · rfl
      · simp only [hrow]
      · simp only [← hidx, ← hAi]
        exact hc.1
      · simp only [hAp, hrow, hidx]
      · simp only [← hidx, ← hAi]
        exact hc.2
    · have h1 : ¬ (M.ExtractMyRowCopy st1.MyRow NumEntries).ierr = 0 := hrow ▸ h0
      simp only [rowLoop, h0, h1, ne_eq, not_false_eq_true, if_true, AMESOS_CHK_ERR]
      exact ⟨by simp, hrow, hidx, hAp, hAi⟩

/-- The outcome of `ConvertToUmfpackCRS` on the coordinator when every extraction succeeds,
for any shift: the row starts are the running entry counts and the entries of row `i`, as
handed to the copy loop, stand from the start of row `i` on. -/
theorem convert_spec (s : State V) (M : Epetra_RowMatrix V) (h : Convertible s M) :
    ∃ s1, ConvertToUmfpackCRS s = .ret 0 s1 ∧
      s1.Ap.length = M.NumGlobalRows + 1 ∧
      (∀ i, i ≤ M.NumGlobalRows → s1.Ap[i]? = some (entriesBefore M i)) ∧
      (∀ i, i < M.NumGlobalRows → ∀ j c v, (rowOut M s.AddToDiag_ i)[j]? = some (c, v) →
        s1.Ai[entriesBefore M i + j]? = some c ∧ s1.Aval[entriesBefore M i + j]? = some v) := by
  obtain ⟨hM, hco, hr, hc, hn, hex, hcap⟩ := h
  have hspec := rowLoop_spec M s.AddToDiag_ M.NumGlobalRows
    { returned := none, MyRow := 0, Ai_index := 0,
      Ap := resize s.Ap (M.NumGlobalRows + 1) 0,
      Ai := resize s.Ai (max M.NumGlobalRows M.NumGlobalNonzeros) 0,
      Aval := resize s.Aval (max M.NumGlobalRows M.NumGlobalNonzeros) 0 }
    rfl (by simp [entriesBefore_zero])
    (fun i _ h2 => hex i (by simpa using h2))
    (by simp [resize_length])
    (by simpa [resize_length] using hcap)
    (by simpa [resize_length] using hcap)
  simp only [Nat.zero_add, resize_length] at hspec
  obtain ⟨r1, r2, r3, r4, r5, r6, -, r8, -, r10⟩ := hspec
  generalize hr0 : rowLoop M M.MaxNumEntries s.AddToDiag_ M.NumGlobalRows
    { returned := none, MyRow := 0, Ai_index := 0,
      Ap := resize s.Ap (M.NumGlobalRows + 1) 0,
      Ai := resize s.Ai (max M.NumGlobalRows M.NumGlobalNonzeros) 0,
      Aval := resize s.Aval (max M.NumGlobalRows M.NumGlobalNonzeros) 0 } = r at *
  refine ⟨{ s with Ap := r.Ap.set r.MyRow r.Ai_index, Ai := r.Ai, Aval := r.Aval }, ?_, ?_, ?_, ?_⟩
  · have hc1 : M.NumGlobalRows = M.NumGlobalCols := hr ▸ hc
    simp only [ConvertToUmfpackCRS, hM, hr, ← hc1, hn, hco, ne_eq, not_true_eq_false,
      if_false, if_true, hr0, r1]
  · simp only [List.length_set, r4]
  · intro i hi
    simp only [r2, r3]
    rcases Nat.eq_or_lt_of_le hi with h1 | h1
    · subst h1
      exact List.getElem?_set_self (by omega)
    · rw [List.getElem?_set_ne (by omega)]
      exact r8 i (Nat.zero_le _) h1
  · intro i hi j c v hj
    exact r10 i (Nat.zero_le _) hi j c v hj

/-- The row starts and the column indices that `ConvertToUmfpackCRS` leaves are those it leaves
with shift `0`. -/
theorem convert_columns (s : State V) :
    (ConvertToUmfpackCRS s).state.Ap = (ConvertToUmfpackCRS { s with AddToDiag_ := 0 }).state.Ap ∧
    (ConvertToUmfpackCRS s).state.Ai = (ConvertToUmfpackCRS { s with AddToDiag_ := 0 }).state.Ai := by
  cases hM : s.SerialMatrix_ with
  | none =>
    simp only [ConvertToUmfpackCRS, hM]
    exact ⟨rfl, rfl⟩
  | some M =>
    obtain ⟨l1, l2, l3, l4, l5⟩ := rowLoop_columns M M.MaxNumEntries s.AddToDiag_
      s.NumGlobalElements_
      { returned := none, MyRow := 0, Ai_index := 0,
        Ap := resize s.Ap (s.NumGlobalElements_ + 1) 0,
        Ai := resize s.Ai (max s.NumGlobalElements_ s.numentries_) 0,
        Aval := resize s.Aval (max s.NumGlobalElements_ s.numentries_) 0 }
      { returned := none, MyRow := 0, Ai_index := 0,
        Ap := resize s.Ap (s.NumGlobalElements_ + 1) 0,
        Ai := resize s.Ai (max s.NumGlobalElements_ s.numentries_) 0,
        Aval := resize s.Aval (max s.NumGlobalElements_ s.numentries_) 0 }
      rfl rfl rfl rfl rfl
    simp only [ConvertToUmfpackCRS, hM]
    split_ifs with h1 h2 h3 h4
    · exact ⟨rfl, rfl⟩
    · exact ⟨rfl, rfl⟩
    · exact ⟨rfl, rfl⟩
    · rw [l1]
      split
      · exact ⟨l4, l5⟩
      · simp only [Outcome.state, l2, l3, l4, l5, and_self]
    · exact ⟨rfl, rfl⟩

theorem convertible_shift_zero (s : State V) (M : Epetra_RowMatrix V) (h : Convertible s M) :
    Convertible { s with AddToDiag_ := 0 } M :=
  ⟨h.matrix, h.coordinator, h.rows, h.cols, h.nonzeros, h.extracted, h.capacity⟩

/-- C1: on the coordinator, for a serial matrix `M` of `N` rows whose row extractions all
succeed, `ConvertToUmfpackCRS` with diagonal shift `0` returns `0` and leaves a row-start
vector `Ap` of length `N + 1` with `Ap[0] = 0`, `Ap[i+1] = Ap[i] + (number of entries of row
i)` for every `i < N` and `Ap[N]` the total number of entries, and `Ai[Ap[i]+j]`,
`Aval[Ap[i]+j]` are the column index and the value of the `j`-th extracted entry of row
`i`. -/
theorem ConvertToUmfpackCRS_layout (s : State V) (M : Epetra_RowMatrix V)
    (h : Convertible s M) (hd : s.AddToDiag_ = 0) :
    ∃ s1, ConvertToUmfpackCRS s = .ret 0 s1 ∧
      s1.Ap.length = M.NumGlobalRows + 1 ∧
      s1.Ap[0]? = some 0 ∧
      s1.Ap[M.NumGlobalRows]? =
        some ((List.range M.NumGlobalRows).map fun i => (rowOf M i).length).sum ∧
      ∀ i, i < M.NumGlobalRows → ∃ a, s1.Ap[i]? = some a ∧
        s1.Ap[i + 1]? = some (a + (rowOf M i).length) ∧
        ∀ j c v, (rowOf M i)[j]? = some (c, v) →
          s1.Ai[a + j]? = some c ∧ s1.Aval[a + j]? = some v := by
  obtain ⟨s1, h1, h2, h3, h4⟩ := convert_spec s M h
  refine ⟨s1, h1, h2, ?_, h3 _ (Nat.le_refl _), fun i hi => ?_⟩
  · rw [h3 0 (Nat.zero_le _), entriesBefore_zero]
  · refine ⟨entriesBefore M i, h3 i (Nat.le_of_lt hi), ?_, fun j c v hj => ?_⟩
    · rw [h3 (i + 1) hi, entriesBefore_succ]
    · apply h4 i hi j c v
      simpa [rowOut, hd] using hj

/-- C2: on the coordinator, for a serial matrix whose row extractions all succeed and a
diagonal shift `d ≠ 0`, `ConvertToUmfpackCRS` returns `0` and leaves, for every row `i`, the
values of the row with `d` added to the first entry whose column index is `i` and every other
entry as extracted; the row starts `Ap` and the column indices `Ai` are those left with
shift `0`. -/
theorem ConvertToUmfpackCRS_shift (s : State V) (M : Epetra_RowMatrix V)
    (h : Convertible s M) (hd : s.AddToDiag_ ≠ 0) :
    ∃ s1 s0, ConvertToUmfpackCRS s = .ret 0 s1 ∧
      ConvertToUmfpackCRS { s with AddToDiag_ := 0 } = .ret 0 s0 ∧
      s1.Ap = s0.Ap ∧ s1.Ai = s0.Ai ∧
      ∀ i, i < M.NumGlobalRows → ∃ a, s1.Ap[i]? = some a ∧
        ∀ j c v, (rowOf M i)[j]? = some (c, v) →
          s1.Ai[a + j]? = some c ∧
          (IsFirstDiag i (rowOf M i) j → s1.Aval[a + j]? = some (v + s.AddToDiag_)) ∧
          (¬ IsFirstDiag i (rowOf M i) j → s1.Aval[a + j]? = some v) := by
  obtain ⟨s1, h1, -, h3, h4⟩ := convert_spec s M h
  obtain ⟨s0, g1, -, -, -⟩ := convert_spec _ M (convertible_shift_zero s M h)
  have hcol := convert_columns s
  rw [h1, g1] at hcol
  refine ⟨s1, s0, h1, g1, hcol.1, hcol.2, fun i hi => ?_⟩
  refine ⟨entriesBefore M i, h3 i (Nat.le_of_lt hi), fun j c v hj => ?_⟩
  have hget := addToDiag_get i s.AddToDiag_ (rowOf M i) j c v hj
  have hout : rowOut M s.AddToDiag_ i = addToDiag i s.AddToDiag_ (rowOf M i) := by
    simp [rowOut, hd]
  refine ⟨?_, fun hf => ?_, fun hf => ?_⟩
  · by_cases hf : IsFirstDiag i (rowOf M i) j
    · exact (h4 i hi j c _ (hout ▸ hget.1 hf)).1
    · exact (h4 i hi j c _ (hout ▸ hget.2 hf)).1
  · exact (h4 i hi j c _ (hout ▸ hget.1 hf)).2
  · exact (h4 i hi j c _ (hout ▸ hget.2 hf)).2

theorem convertible_enterA (d : Int) : Convertible (enterA d) matrixA :=
  ⟨rfl, rfl, rfl, rfl, rfl, fun i hi => by
    have hi3 : i < 3 := hi
    interval_cases i <;> rfl, by decide⟩

/-- The sample matrix, entered with shift `0` on the coordinator, is converted as stated. -/
theorem ConvertToUmfpackCRS_layout_witness :
    Convertible (enterA 0) matrixA ∧ (enterA 0).AddToDiag_ = 0 ∧
    ∃ s1, ConvertToUmfpackCRS (enterA 0) = .ret 0 s1 ∧
      s1.Ap.length = matrixA.NumGlobalRows + 1 ∧
      s1.Ap[0]? = some 0 ∧
      s1.Ap[matrixA.NumGlobalRows]? =
        some ((List.range matrixA.NumGlobalRows).map fun i => (rowOf matrixA i).length).sum ∧
      ∀ i, i < matrixA.NumGlobalRows → ∃ a, s1.Ap[i]? = some a ∧
        s1.Ap[i + 1]? = some (a + (rowOf matrixA i).length) ∧
        ∀ j c v, (rowOf matrixA i)[j]? = some (c, v) →
          s1.Ai[a + j]? = some c ∧ s1.Aval[a + j]? = some v :=
  ⟨convertible_enterA 0, rfl, ConvertToUmfpackCRS_layout (enterA 0) matrixA (convertible_enterA 0) rfl⟩

/-- The sample matrix, entered with shift `2` on the coordinator, is converted as stated. -/
theorem ConvertToUmfpackCRS_shift_witness :
    Convertible (enterA 2) matrixA ∧ (enterA 2).AddToDiag_ ≠ 0 ∧
    ∃ s1 s0, ConvertToUmfpackCRS (enterA 2) = .ret 0 s1 ∧
      ConvertToUmfpackCRS { enterA 2 with AddToDiag_ := 0 } = .ret 0 s0 ∧
      s1.Ap = s0.Ap ∧ s1.Ai = s0.Ai ∧
      ∀ i, i < matrixA.NumGlobalRows → ∃ a, s1.Ap[i]? = some a ∧
        ∀ j c v, (rowOf matrixA i)[j]? = some (c, v) →
          s1.Ai[a + j]? = some c ∧
          (IsFirstDiag i (rowOf matrixA i) j →
            s1.Aval[a + j]? = some (v + (enterA 2).AddToDiag_)) ∧
          (¬ IsFirstDiag i (rowOf matrixA i) j → s1.Aval[a + j]? = some v) :=
  ⟨convertible_enterA 2, by decide,
    ConvertToUmfpackCRS_shift (enterA 2) matrixA (convertible_enterA 2) (by decide)⟩

end ConverterFacts

/-! ## Facts about the orchestrator -/

section OrchestratorFacts

variable {V : Type} [Add V] [Zero V] [DecidableEq V]

theorem convert_frame (s : State V) :
    ∃ Ap Ai Aval, (ConvertToUmfpackCRS s).state = { s with Ap := Ap, Ai := Ai, Aval := Aval } := by
  unfold ConvertToUmfpackCRS
  split
  · exact ⟨s.Ap, s.Ai, s.Aval, rfl⟩
  · dsimp only
    split_ifs with h1 h2 h3 h4
    · exact ⟨s.Ap, s.Ai, s.Aval, rfl⟩
    · exact ⟨s.Ap, s.Ai, s.Aval, rfl⟩
    · exact ⟨s.Ap, s.Ai, s.Aval, rfl⟩
    · split
      · exact ⟨_, _, _, rfl⟩
      · exact ⟨_, _, _, rfl⟩
    · exact ⟨_, _, _, rfl⟩

theorem convert_returns (s : State V) (M : Epetra_RowMatrix V) (hM : s.SerialMatrix_ = some M)
    (h1 : s.NumGlobalElements_ = M.NumGlobalRows) (h2 : s.NumGlobalElements_ = M.NumGlobalCols)
    (h3 : s.numentries_ = M.NumGlobalNonzeros) :
    ∃ status s1, ConvertToUmfpackCRS s = .ret status s1 := by
  simp only [ConvertToUmfpackCRS, hM]
  rw [if_neg (not_not.2 h1), if_neg (not_not.2 h2), if_neg (not_not.2 h3)]
  split_ifs with h4
  · split
    · exact ⟨_, _, rfl⟩
    · exact ⟨_, _, rfl⟩
  · exact ⟨_, _, rfl⟩

theorem ConvertToSerial_cases (env : Env V) (s : State V) :
    (env.Matrix.NumGlobalRows ≠ env.Matrix.NumGlobalCols ∧
      ConvertToSerial env s = .abort
        { s with iam := env.MyPID, NumGlobalElements_ := env.Matrix.NumGlobalRows,
                 numentries_ := env.Matrix.NumGlobalNonzeros }) ∨
    (env.Matrix.NumGlobalRows = env.Matrix.NumGlobalCols ∧
      ConvertToSerial env s = .ret 0 (afterSerial env s)) := by
  by_cases hsq : env.Matrix.NumGlobalRows = env.Matrix.NumGlobalCols
  · right
    refine ⟨hsq, ?_⟩
    cases hloc : env.IsLocal <;> simp [ConvertToSerial, afterSerial, hsq, hloc]
  · left
    refine ⟨hsq, ?_⟩
    simp [ConvertToSerial, hsq]

theorem convert_ret_asserts (s : State V) (status : Int) (s1 : State V)
    (h : ConvertToUmfpackCRS s = .ret status s1) :
    ∃ M, s.SerialMatrix_ = some M ∧ s.NumGlobalElements_ = M.NumGlobalRows ∧
      s.NumGlobalElements_ = M.NumGlobalCols ∧ s.numentries_ = M.NumGlobalNonzeros := by
  unfold ConvertToUmfpackCRS at h
  split at h
  · exact absurd h (by simp)
  · rename_i M hM
    dsimp only at h
    split_ifs at h with h1 h2 h3 h4
    · exact ⟨M, hM, not_not.1 h1, not_not.1 h2, not_not.1 h3⟩
    · exact ⟨M, hM, not_not.1 h1, not_not.1 h2, not_not.1 h3⟩

theorem gatherConvert_ret_ok (env : Env V) (s : State V) (status : Int) (s1 : State V)
    (h : gatherConvert env s = .ret status s1) : MatrixOK env := by
  unfold gatherConvert at h
  rcases ConvertToSerial_cases env s with ⟨-, h0⟩ | ⟨hsq, h0⟩
  · rw [h0] at h
    exact absurd h (by simp [Outcome.andThen])
  · rw [h0] at h
    simp only [Outcome.andThen] at h
    obtain ⟨M, hM, h1, h2, h3⟩ := convert_ret_asserts _ _ _ h
    refine ⟨hsq, fun hloc => ?_⟩
    simp only [afterSerial, hloc, Bool.false_eq_true, if_false, Option.some.injEq] at hM h1 h2 h3
    subst hM
    exact ⟨h1.symm, h2.symm, h3.symm⟩

/-- What gathering and converting leave: the members outside the frame are untouched, and
when both steps return, the rank and the dimensions are those of the outside. -/
theorem gatherConvert_cases (env : Env V) (s : State V) :
    (∃ s1, gatherConvert env s = .abort s1 ∧ Frame s s1) ∨
    (∃ status s1, gatherConvert env s = .ret status s1 ∧ Frame s s1 ∧ s1.iam = env.MyPID ∧
      s1.NumGlobalElements_ = env.Matrix.NumGlobalRows ∧
      s1.IsLocal_ = if env.IsLocal then 1 else 0) := by
  unfold gatherConvert
  rcases ConvertToSerial_cases env s with ⟨-, h⟩ | ⟨-, h⟩
  · left
    rw [h]
    exact ⟨_, rfl, _, _, _, s.IsLocal_, s.SerialMatrix_, s.Ap, s.Ai, s.Aval, rfl⟩
  · rw [h]
    simp only [Outcome.andThen]
    obtain ⟨Ap, Ai, Aval, hf⟩ := convert_frame (afterSerial env s)
    cases hc : ConvertToUmfpackCRS (afterSerial env s) with
    | abort s3 =>
      left
      rw [hc] at hf
      simp only [Outcome.state] at hf
      subst hf
      exact ⟨_, rfl, _, _, _, _, _, _, _, _, rfl⟩
    | ret status s3 =>
      right
      rw [hc] at hf
      simp only [Outcome.state] at hf
      subst hf
      exact ⟨_, _, rfl, ⟨_, _, _, _, _, _, _, _, rfl⟩, rfl, rfl, rfl⟩

theorem gatherConvert_returns (env : Env V) (s : State V) (h : MatrixOK env) :
    ∃ status s1, gatherConvert env s = .ret status s1 := by
  obtain ⟨hsq, hg⟩ := h
  unfold gatherConvert
  rcases ConvertToSerial_cases env s with ⟨hne, -⟩ | ⟨-, h⟩
  · exact absurd hsq hne
  · rw [h]
    simp only [Outcome.andThen]
    cases hloc : env.IsLocal with
    | true =>
      exact convert_returns _ env.Matrix (by simp [afterSerial, hloc]) rfl hsq rfl
    | false =>
      obtain ⟨g1, g2, g3⟩ := hg hloc
      exact convert_returns _ env.Gathered (by simp [afterSerial, hloc]) g1.symm g2.symm g3.symm

theorem andThen_assoc (o : Outcome V) (f g : Int → State V → Outcome V) :
    (o.andThen f).andThen g = o.andThen fun status s => (f status s).andThen g := by
  cases o <;> rfl

theorem SymbolicFactorization_eq (env : Env V) (s : State V) :
    SymbolicFactorization env s =
      (gatherConvert env (symbolicEntry s)).andThen fun _ s3 =>
        (PerformSymbolicFactorization env s3).andThen fun _ s4 =>
          .ret 0 { s4 with IsSymbolicFactorizationOK_ := false } := by
  unfold gatherConvert
  rw [andThen_assoc]
  rfl

theorem NumericFactorization_eq (env : Env V) (s : State V) :
    NumericFactorization env s =
      (gatherConvert env (numericEntry s)).andThen fun _ s3 =>
        (if !s3.IsSymbolicFactorizationOK_ then SymbolicFactorization env s3
         else .ret 0 s3).andThen fun _ s4 =>
          (PerformNumericFactorization env s4).andThen fun _ s5 =>
            .ret 0 { s5 with IsNumericFactorizationOK_ := true } := by
  unfold gatherConvert
  rw [andThen_assoc]
  rfl

/-- Gathering and converting either end the process, when an assertion on the matrices fails,
or return, and leave the members outside the frame as they are. -/
theorem gatherConvert_spec (env : Env V) (s : State V) :
    (¬ MatrixOK env ∧ ∃ s1, gatherConvert env s = .abort s1 ∧ Frame s s1) ∨
    (MatrixOK env ∧ ∃ status s1, gatherConvert env s = .ret status s1 ∧ Frame s s1 ∧
      s1.iam = env.MyPID ∧ s1.NumGlobalElements_ = env.Matrix.NumGlobalRows ∧
      s1.IsLocal_ = if env.IsLocal then 1 else 0) := by
  rcases gatherConvert_cases env s with ⟨s1, h, hf⟩ | ⟨status, s1, h, hf⟩
  · left
    refine ⟨fun hok => ?_, s1, h, hf⟩
    obtain ⟨status, s2, h2⟩ := gatherConvert_returns env s hok
    rw [h] at h2
    exact absurd h2 (by simp)
  · right
    exact ⟨gatherConvert_ret_ok env s status s1 h, status, s1, h, hf⟩

theorem Frame.trans_symbolic {s s3 s5 : State V} (h1 : Frame s s3)
    (h2 : Frame (symbolicEntry s3) s5) : Frame (symbolicEntry s) s5 := by
  obtain ⟨_, _, _, _, _, _, _, _, rfl⟩ := h1
  obtain ⟨_, _, _, _, _, _, _, _, rfl⟩ := h2
  exact ⟨_, _, _, _, _, _, _, _, rfl⟩

/-- The outcome of `SymbolicFactorization`: the process ends in the gathering, or the method
returns `0` after the engine step on a state that differs from the entry state in the
gathered members only. -/
theorem SymbolicFactorization_spec (env : Env V) (s : State V) :
    (¬ MatrixOK env ∧ ∃ s3, Frame (symbolicEntry s) s3 ∧
      SymbolicFactorization env s = .abort s3) ∨
    (MatrixOK env ∧ ∃ s3, Frame (symbolicEntry s) s3 ∧ s3.iam = env.MyPID ∧
      s3.NumGlobalElements_ = env.Matrix.NumGlobalRows ∧
      (s3.IsLocal_ = if env.IsLocal then 1 else 0) ∧
      SymbolicFactorization env s = .ret 0
        { (PerformSymbolicFactorization env s3).state with
          IsSymbolicFactorizationOK_ := false }) := by
  rw [SymbolicFactorization_eq]
  rcases gatherConvert_spec env (symbolicEntry s) with
    ⟨hok, s3, h, hf⟩ | ⟨hok, status, s3, h, hf, h1, h2, h3⟩
  · left
    exact ⟨hok, s3, hf, by rw [h]; rfl⟩
  · right
    exact ⟨hok, s3, hf, h1, h2, h3, by rw [h]; rfl⟩

/-- The outcome of `NumericFactorization`: the process ends in the gathering, or the method
goes on to the numeric engine step, after a `SymbolicFactorization` when the symbolic flag is
not set. -/
theorem NumericFactorization_spec (env : Env V) (s : State V) :
    (¬ MatrixOK env ∧ ∃ s3, Frame (numericEntry s) s3 ∧
      NumericFactorization env s = .abort s3) ∨
    (MatrixOK env ∧ s.IsSymbolicFactorizationOK_ = false ∧
      ∃ s5, Frame (symbolicEntry (numericEntry s)) s5 ∧ s5.iam = env.MyPID ∧
      s5.NumGlobalElements_ = env.Matrix.NumGlobalRows ∧
      (s5.IsLocal_ = if env.IsLocal then 1 else 0) ∧
      NumericFactorization env s =
        (PerformNumericFactorization env
          { (PerformSymbolicFactorization env s5).state with
            IsSymbolicFactorizationOK_ := false }).andThen fun _ s6 =>
          .ret 0 { s6 with IsNumericFactorizationOK_ := true }) ∨
    (MatrixOK env ∧ s.IsSymbolicFactorizationOK_ = true ∧
      ∃ s3, Frame (numericEntry s) s3 ∧ s3.iam = env.MyPID ∧
      s3.NumGlobalElements_ = env.Matrix.NumGlobalRows ∧
      (s3.IsLocal_ = if env.IsLocal then 1 else 0) ∧
      NumericFactorization env s =
        (PerformNumericFactorization env s3).andThen fun _ s6 =>
          .ret 0 { s6 with IsNumericFactorizationOK_ := true }) := by
  rw [NumericFactorization_eq]
  rcases gatherConvert_spec env (numericEntry s) with
    ⟨hok, s3, h, hf⟩ | ⟨hok, status, s3, h, hf, h1, h2, h3⟩
  · left
    exact ⟨hok, s3, hf, by rw [h]; rfl⟩
  · right
    rw [h]
    simp only [Outcome.andThen]
    have hflag : s3.IsSymbolicFactorizationOK_ = s.IsSymbolicFactorizationOK_ := by
      obtain ⟨_, _, _, _, _, _, _, _, rfl⟩ := hf
      rfl
    cases hsym : s.IsSymbolicFactorizationOK_ with
    | false =>
      left
      rcases SymbolicFactorization_spec env s3 with
        ⟨hno, -⟩ | ⟨-, s5, gf, g1, g2, g3, g⟩
      · exact absurd hok hno
      · refine ⟨hok, rfl, s5, Frame.trans_symbolic hf gf, g1, g2, g3, ?_⟩
        simp only [hflag, hsym, Bool.not_false, if_true, g]
    | true =>
      right
      refine ⟨hok, rfl, s3, hf, h1, h2, h3, ?_⟩
      simp only [hflag, hsym, Bool.not_true, Bool.false_eq_true, if_false]

theorem Extends.refl (p : Event → Prop) (t : List Event) : Extends p t t :=
  ⟨[], by simp, by simp⟩

theorem Extends.trans {p : Event → Prop} {t t1 t2 : List Event} (h1 : Extends p t t1)
    (h2 : Extends p t1 t2) : Extends p t t2 := by
  obtain ⟨a1, rfl, hall1⟩ := h1
  obtain ⟨a2, rfl, hall2⟩ := h2
  refine ⟨a1 ++ a2, by simp, fun x hx => ?_⟩
  rcases List.mem_append.1 hx with hx | hx
  · exact hall1 x hx
  · exact hall2 x hx

theorem Frame.trace {s s1 : State V} (h : Frame s s1) : s1.trace = s.trace := by
  obtain ⟨_, _, _, _, _, _, _, _, rfl⟩ := h
  rfl

theorem Extends.of_append {p : Event → Prop} (t l : List Event) (h : ∀ e ∈ l, p e) :
    Extends p t (t ++ l) :=
  ⟨l, rfl, h⟩

theorem PerformSymbolicFactorization_trace (env : Env V) (s : State V) :
    Extends (fun e => e.isSolve = false) s.trace
      (PerformSymbolicFactorization env s).state.trace := by
  unfold PerformSymbolicFactorization
  by_cases h1 : s.Symbolic = 0 <;> by_cases h2 : s.iam = 0 <;>
    simp only [h1, h2, Outcome.state, ne_eq, not_true_eq_false, not_false_eq_true, if_true,
      if_false, List.append_assoc] <;>
    first
    | exact Extends.refl _ _
    | exact Extends.of_append _ _ (by simp [Event.isSolve])

theorem PerformNumericFactorization_trace (env : Env V) (s : State V) :
    Extends (fun e => e.isSolve = false) s.trace
      (PerformNumericFactorization env s).state.trace := by
  unfold PerformNumericFactorization
  by_cases h1 : s.Numeric = 0 <;> by_cases h2 : s.iam = 0 <;>
    simp only [h1, h2, ne_eq, not_true_eq_false, not_false_eq_true, if_true, if_false] <;>
    (try split_ifs) <;>
    simp only [Outcome.state, List.append_assoc] <;>
    first
    | exact Extends.refl _ _
    | exact Extends.of_append _ _ (by simp [Event.isSolve])

theorem andThen_flag_state (o : Outcome V) :
    (o.andThen fun _ s6 => .ret 0 { s6 with IsNumericFactorizationOK_ := true }).state.trace =
      o.state.trace := by
  cases o <;> rfl

theorem andThen_flag_status (o : Outcome V) (status : Int) (s1 : State V)
    (h : (o.andThen fun _ s6 => .ret 0 { s6 with IsNumericFactorizationOK_ := true }) =
      .ret status s1) : status = 0 := by
  cases o with
  | abort s => exact absurd h (by simp [Outcome.andThen])
  | ret st s =>
    simp only [Outcome.andThen, Outcome.ret.injEq] at h
    exact h.1.symm

/-- `NumericFactorization` returns no status but `0`. -/
theorem NumericFactorization_status (env : Env V) (s : State V) (status : Int) (s1 : State V)
    (h : NumericFactorization env s = .ret status s1) : status = 0 := by
  rcases NumericFactorization_spec env s with
    ⟨-, s3, -, h3⟩ | ⟨-, -, s5, -, -, -, -, h5⟩ | ⟨-, -, s3, -, -, -, -, h3⟩
  · rw [h3] at h
    exact absurd h (by simp)
  · rw [h5] at h
    exact andThen_flag_status _ _ _ h
  · rw [h3] at h
    exact andThen_flag_status _ _ _ h

/-- `NumericFactorization` issues no triangular solve. -/
theorem NumericFactorization_trace (env : Env V) (s : State V) :
    Extends (fun e => e.isSolve = false) s.trace (NumericFactorization env s).state.trace := by
  rcases NumericFactorization_spec env s with
    ⟨-, s3, hf, h3⟩ | ⟨-, -, s5, hf, -, -, -, h5⟩ | ⟨-, -, s3, hf, -, -, -, h3⟩
  · rw [h3]
    simp only [Outcome.state, hf.trace]
    exact Extends.refl _ _
  · rw [h5, andThen_flag_state]
    have h1 := PerformSymbolicFactorization_trace env s5
    rw [hf.trace] at h1
    exact h1.trans (PerformNumericFactorization_trace env _)
  · rw [h3, andThen_flag_state]
    have h1 := PerformNumericFactorization_trace env s3
    rw [hf.trace] at h1
    exact h1

theorem Solve_vectors_invalid (env : Env V) (s : State V) (h : VectorsInvalid env) :
    Solve.vectors env s = .ret (-1) s := by
  unfold Solve.vectors
  rcases h with h | h | ⟨X, B, hX, hB, hne⟩
  · rw [h]
    rfl
  · rw [h]
    cases env.LHS <;> rfl
  · rw [hX, hB]
    simp [hne, AMESOS_CHK_ERR]

/-- C3, on the code: the first row of `matrixB` holds more entries than the declared maximum,
its extraction on the coordinator reports `-2` and `ConvertToUmfpackCRS` returns `-1`; all
the same `SymbolicFactorization` and `NumericFactorization` go on to the engine calls and
return `0`. -/
theorem factorization_drops_conversion_error :
    (matrixB.ExtractMyRowCopy 0 matrixB.MaxNumEntries).ierr = -2 ∧
    (∃ s1, gatherConvert (sampleEnv 0 matrixB umfpackOk) (symbolicEntry fresh) = .ret (-1) s1) ∧
    (∃ s1, SymbolicFactorization (sampleEnv 0 matrixB umfpackOk) fresh = .ret 0 s1 ∧
      s1.trace = [.umfpack_di_symbolic 0 1]) ∧
    (∃ s1, NumericFactorization (sampleEnv 0 matrixB umfpackOk) fresh = .ret 0 s1 ∧
      s1.trace = [.umfpack_di_symbolic 0 1, .umfpack_di_numeric 0 2]) :=
  ⟨rfl, ⟨_, rfl⟩, ⟨_, rfl, rfl⟩, ⟨_, rfl, rfl⟩⟩

/-- C4 as stated fails: from the constructed state, where the numeric factorization is not
ready, a `Solve` of the coordinator with a null solution vector returns `-1` after a symbolic
and a numeric engine call. -/
theorem Solve_null_vector_calls_engine :
    envNullLHS.LHS = none ∧ fresh.IsNumericFactorizationOK_ = false ∧ fresh.trace = [] ∧
    ∃ s1, Solve envNullLHS fresh = .ret (-1) s1 ∧
      s1.trace = [.umfpack_di_symbolic 0 1, .umfpack_di_numeric 0 2] :=
  ⟨rfl, rfl, rfl, _, rfl, rfl⟩

/-- C4, amended: a `Solve` whose solution or right-hand side is null, or whose vectors differ
in their number of columns, issues no triangular solve. When the numeric factorization is
ready it returns `-1` and makes no engine call at all (only the solve counter and the timer
change). When it is not ready, `Solve` first runs `NumericFactorization` with its engine
calls, and returns `-1` when that returns. -/
theorem Solve_invalid_vectors (env : Env V) (s : State V) (h : VectorsInvalid env) :
    (s.IsNumericFactorizationOK_ = true → Solve env s = .ret (-1) (solveEntry s) ∧
      (solveEntry s).trace = s.trace) ∧
    (s.IsNumericFactorizationOK_ = false →
      Solve env s = (NumericFactorization env (solveEntry s)).andThen fun _ s1 => .ret (-1) s1) ∧
    (∀ status s1, Solve env s = .ret status s1 → status = -1) ∧
    Extends (fun e => e.isSolve = false) s.trace (Solve env s).state.trace := by
  have hready : s.IsNumericFactorizationOK_ = true → Solve env s = .ret (-1) (solveEntry s) := by
    intro hr
    have : Solve.factorize env s = .ret 0 (solveEntry s) := by
      simp [Solve.factorize, solveEntry, hr]
    simp only [Solve, this, Outcome.andThen, AMESOS_CHK_ERR, ne_eq, not_true_eq_false, if_false]
    exact Solve_vectors_invalid env _ h
  have hnot : s.IsNumericFactorizationOK_ = false →
      Solve env s = (NumericFactorization env (solveEntry s)).andThen fun _ s1 => .ret (-1) s1 := by
    intro hr
    have : Solve.factorize env s = NumericFactorization env (solveEntry s) := by
      simp [Solve.factorize, solveEntry, hr]
    simp only [Solve, this]
    cases hn : NumericFactorization env (solveEntry s) with
    | abort s1 => rfl
    | ret status s1 =>
      have h0 := NumericFactorization_status env _ status s1 hn
      subst h0
      simp only [Outcome.andThen, AMESOS_CHK_ERR, ne_eq, not_true_eq_false, if_false]
      exact Solve_vectors_invalid env _ h
  refine ⟨fun hr => ⟨hready hr, rfl⟩, hnot, fun status s1 hs => ?_, ?_⟩
  · cases hr : s.IsNumericFactorizationOK_ with
    | true =>
      rw [hready hr] at hs
      simp only [Outcome.ret.injEq] at hs
      exact hs.1.symm
    | false =>
      rw [hnot hr] at hs
      cases hn : NumericFactorization env (solveEntry s) with
      | abort s2 =>
        rw [hn] at hs
        exact absurd hs (by simp [Outcome.andThen])
      | ret st s2 =>
        rw [hn] at hs
        simp only [Outcome.andThen, Outcome.ret.injEq] at hs
        exact hs.1.symm
  · cases hr : s.IsNumericFactorizationOK_ with
    | true =>
      rw [hready hr]
      exact Extends.refl _ _
    | false =>
      rw [hnot hr]
      have ht := NumericFactorization_trace env (solveEntry s)
      cases hn : NumericFactorization env (solveEntry s) with
      | abort s2 =>
        rw [hn] at ht
        exact ht
      | ret st s2 =>
        rw [hn] at ht
        exact ht

/-- With the null solution vector of `envNullLHS`, a `Solve` from the constructed state is the
factorization followed by the return of `-1`. -/
theorem Solve_invalid_vectors_witness :
    VectorsInvalid envNullLHS ∧
    (fresh.IsNumericFactorizationOK_ = false →
      Solve envNullLHS fresh =
        (NumericFactorization envNullLHS (solveEntry fresh)).andThen fun _ s1 => .ret (-1) s1) :=
  ⟨Or.inl rfl, (Solve_invalid_vectors envNullLHS fresh (Or.inl rfl)).2.1⟩

theorem solveEvents_zero (env : Env V) (sys : UmfpackRequest) (n j : Nat) :
    solveEvents env sys n j 0 = [] := rfl

theorem solveEvents_succ (env : Env V) (sys : UmfpackRequest) (n j m : Nat) :
    solveEvents env sys n j (m + 1) =
      .umfpack_di_solve sys j (env.umfpack n).status :: solveEvents env sys (n + 1) (j + 1) m := by
  simp only [solveEvents, List.range_succ_eq_map, List.map_cons, List.map_map, Nat.add_zero,
    List.cons.injEq, true_and]
  apply List.map_congr_left
  intro i _
  simp only [Function.comp, Nat.succ_eq_add_one]
  rw [show j + (i + 1) = j + 1 + i by omega, show n + (i + 1) = n + 1 + i by omega]

/-- The solve loop issues the solves column by column and stops after the first one that
reports a non-zero status, which it returns. -/
theorem solveLoop_spec (env : Env V) (sys : UmfpackRequest) (todo j : Nat) (s : State V) :
    ∃ m, m ≤ todo ∧
      (solveLoop env sys todo j s).2 =
        { s with trace := s.trace ++ solveEvents env sys s.trace.length j m } ∧
      (((solveLoop env sys todo j s).1 = none ∧ m = todo ∧
          ∀ i, i < m → (env.umfpack (s.trace.length + i)).status = 0) ∨
       (∃ i, m = i + 1 ∧ (∀ i1, i1 < i → (env.umfpack (s.trace.length + i1)).status = 0) ∧
          (env.umfpack (s.trace.length + i)).status ≠ 0 ∧
          (solveLoop env sys todo j s).1 = some (env.umfpack (s.trace.length + i)).status)) := by
  induction todo generalizing j s with
  | zero =>
    refine ⟨0, Nat.le_refl _, ?_, Or.inl ⟨rfl, rfl, fun i hi => absurd hi (Nat.not_lt_zero _)⟩⟩
    simp [solveLoop, solveEvents_zero]
  | succ todo ih =>
    by_cases h0 : (env.umfpack s.trace.length).status = 0
    · obtain ⟨m, hm, hst, hcase⟩ := ih (j + 1)
        { s with trace := s.trace ++ [.umfpack_di_solve sys j (env.umfpack s.trace.length).status] }
      have hstep : solveLoop env sys (todo + 1) j s = solveLoop env sys todo (j + 1)
          { s with trace := s.trace ++
              [.umfpack_di_solve sys j (env.umfpack s.trace.length).status] } := by
        simp [solveLoop, AMESOS_CHK_ERR, h0]
      simp only [List.length_append, List.length_singleton] at hst hcase
      refine ⟨m + 1, by omega, ?_, ?_⟩
      · rw [hstep, hst, solveEvents_succ]
        simp
      · rw [hstep]
        rcases hcase with ⟨h1, h2, h3⟩ | ⟨i, h1, h2, h3, h4⟩
        · refine Or.inl ⟨h1, by omega, fun i hi => ?_⟩
          cases i with
          | zero => exact h0
          | succ i =>
            have := h3 i (by omega)
            rwa [show s.trace.length + 1 + i = s.trace.length + (i + 1) by omega] at this
        · refine Or.inr ⟨i + 1, by omega, fun i1 hi1 => ?_, ?_, ?_⟩
          · cases i1 with
            | zero => exact h0
            | succ i1 =>
              have := h2 i1 (by omega)
              rwa [show s.trace.length + 1 + i1 = s.trace.length + (i1 + 1) by omega] at this
          · rwa [show s.trace.length + 1 + i = s.trace.length + (i + 1) by omega] at h3
          · rwa [show s.trace.length + 1 + i = s.trace.length + (i + 1) by omega] at h4
    · refine ⟨1, by omega, ?_, Or.inr ⟨0, rfl, fun i1 hi1 => absurd hi1 (Nat.not_lt_zero _),
        h0, ?_⟩⟩
      · simp [solveLoop, AMESOS_CHK_ERR, h0, solveEvents_succ, solveEvents_zero]
      · simp [solveLoop, AMESOS_CHK_ERR, h0]

/-- With valid vectors and views, on the coordinator, the vector part of `Solve` is the solve
loop. -/
theorem Solve_vectors_reach (env : Env V) (s1 : State V) (k : Nat) (h : ReachesSolve env s1 k) :
    Solve.vectors env s1 =
      match solveLoop env (requestOf s1) k 0 s1 with
      | (some err, s2) => .ret err s2
      | (none, s2) => .ret 0 s2 := by
  obtain ⟨X, B, hX, hB, hk1, hk2, hloc, hiam, v1, v2, v3, v4⟩ := h
  unfold Solve.vectors
  rw [hX, hB]
  simp only [hk1, hk2, ne_eq, not_true_eq_false, if_false, hloc, hiam, if_true, v1, v2, v3, v4,
    requestOf]

theorem PerformSymbolicFactorization_control (env : Env V) (s : State V) :
    SameControl s (PerformSymbolicFactorization env s).state ∧
    (PerformSymbolicFactorization env s).state.Numeric = s.Numeric ∧
    (PerformSymbolicFactorization env s).state.Rcond_ = s.Rcond_ ∧
    (PerformSymbolicFactorization env s).state.RcondValidOnAllProcs_ =
      s.RcondValidOnAllProcs_ := by
  unfold PerformSymbolicFactorization
  dsimp only
  split_ifs <;> exact ⟨⟨rfl, rfl, rfl, rfl, rfl, rfl, rfl, rfl, rfl⟩, rfl, rfl, rfl⟩

theorem PerformNumericFactorization_control (env : Env V) (s : State V) :
    SameControl s (PerformNumericFactorization env s).state ∧
    (PerformNumericFactorization env s).state.Symbolic = s.Symbolic ∧
    (PerformNumericFactorization env s).state.RcondValidOnAllProcs_ = false := by
  unfold PerformNumericFactorization
  dsimp only
  split_ifs <;> exact ⟨⟨rfl, rfl, rfl, rfl, rfl, rfl, rfl, rfl, rfl⟩, rfl, rfl⟩

/-- On the coordinator the symbolic engine step ends with the call of `umfpack_di_symbolic`
and returns `0` whatever status the call reports. -/
theorem PerformSymbolicFactorization_coordinator (env : Env V) (s : State V) (h : s.iam = 0) :
    ∃ t handle, (PerformSymbolicFactorization env s).state.trace =
      t ++ [.umfpack_di_symbolic (env.umfpack t.length).status handle] ∧
      Extends (fun e => e.isSolve = false) s.trace t := by
  unfold PerformSymbolicFactorization
  by_cases h1 : s.Symbolic = 0 <;>
    simp only [h1, h, Outcome.state, ne_eq, not_true_eq_false, not_false_eq_true, if_true,
      if_false]
  · exact ⟨_, _, rfl, Extends.refl _ _⟩
  · exact ⟨_, _, rfl, Extends.of_append _ _ (by simp [Event.isSolve])⟩

/-- On the coordinator the numeric engine step ends with the call of `umfpack_di_numeric`;
it ends the process when the call reports a non-zero status and returns `0` otherwise. -/
theorem PerformNumericFactorization_coordinator (env : Env V) (s : State V) (h : s.iam = 0) :
    ∃ t handle, (PerformNumericFactorization env s).state.trace =
      t ++ [.umfpack_di_numeric (env.umfpack t.length).status handle] ∧
      Extends (fun e => e.isSolve = false) s.trace t ∧
      (PerformNumericFactorization env s).state.Rcond_ = (env.umfpack t.length).rcond ∧
      ((env.umfpack t.length).status ≠ 0 →
        PerformNumericFactorization env s = .abort (PerformNumericFactorization env s).state) ∧
      ((env.umfpack t.length).status = 0 →
        PerformNumericFactorization env s = .ret 0 (PerformNumericFactorization env s).state) := by
  by_cases h1 : s.Numeric = 0
  · refine ⟨s.trace, newHandle (env.umfpack s.trace.length) s.trace.length, ?_,
      Extends.refl _ _, ?_, fun hs => ?_, fun hs => ?_⟩
    · simp only [PerformNumericFactorization, h1, h, ne_eq, not_true_eq_false, if_true, if_false]
      split_ifs <;> rfl
    · simp only [PerformNumericFactorization, h1, h, ne_eq, not_true_eq_false, if_true, if_false]
      split_ifs <;> rfl
    · simp only [PerformNumericFactorization, h1, h, hs, ne_eq, not_true_eq_false,
        not_false_eq_true, if_true, if_false, Outcome.state]
    · simp only [PerformNumericFactorization, h1, h, hs, ne_eq, not_true_eq_false,
        not_false_eq_true, if_true, if_false, Outcome.state]
  · refine ⟨s.trace ++ [.umfpack_di_free_numeric s.Numeric],
      newHandle (env.umfpack (s.trace ++ [Event.umfpack_di_free_numeric s.Numeric]).length)
        (s.trace ++ [Event.umfpack_di_free_numeric s.Numeric]).length, ?_,
      Extends.of_append _ _ (by simp [Event.isSolve]), ?_, fun hs => ?_, fun hs => ?_⟩
    · simp only [PerformNumericFactorization, h1, h, ne_eq, not_true_eq_false,
        not_false_eq_true, if_true, if_false]
      split_ifs <;> rfl
    · simp only [PerformNumericFactorization, h1, h, ne_eq, not_true_eq_false,
        not_false_eq_true, if_true, if_false]
      split_ifs <;> rfl
    · simp only [PerformNumericFactorization, h1, h, hs, ne_eq, not_true_eq_false,
        not_false_eq_true, if_true, if_false, Outcome.state]
    · simp only [PerformNumericFactorization, h1, h, hs, ne_eq, not_true_eq_false,
        not_false_eq_true, if_true, if_false, Outcome.state]

theorem Frame.control {s s1 : State V} (h : Frame s s1) :
    s1.IsSymbolicFactorizationOK_ = s.IsSymbolicFactorizationOK_ ∧
    s1.IsNumericFactorizationOK_ = s.IsNumericFactorizationOK_ ∧
    s1.UseTranspose_ = s.UseTranspose_ ∧
    s1.NumSymbolicFact_ = s.NumSymbolicFact_ ∧
    s1.NumNumericFact_ = s.NumNumericFact_ ∧
    s1.NumSolve_ = s.NumSolve_ ∧
    s1.Symbolic = s.Symbolic ∧ s1.Numeric = s.Numeric ∧
    s1.Rcond_ = s.Rcond_ ∧ s1.RcondValidOnAllProcs_ = s.RcondValidOnAllProcs_ := by
  obtain ⟨_, _, _, _, _, _, _, _, rfl⟩ := h
  exact ⟨rfl, rfl, rfl, rfl, rfl, rfl, rfl, rfl, rfl, rfl⟩

theorem andThen_flag_ret (o : Outcome V) (status : Int) (s1 : State V)
    (h : (o.andThen fun _ s6 => .ret 0 { s6 with IsNumericFactorizationOK_ := true }) =
      .ret status s1) :
    ∃ st, o = .ret st o.state ∧ status = 0 ∧
      s1 = { o.state with IsNumericFactorizationOK_ := true } := by
  cases o with
  | abort s => exact absurd h (by simp [Outcome.andThen])
  | ret st s =>
    simp only [Outcome.andThen, Outcome.ret.injEq] at h
    exact ⟨st, rfl, h.1.symm, h.2.symm⟩

/-- What a `NumericFactorization` that returns leaves in the flags, the counters and the
members that describe the gathered problem. -/
theorem NumericFactorization_ret (env : Env V) (s : State V) (status : Int) (s1 : State V)
    (h : NumericFactorization env s = .ret status s1) :
    status = 0 ∧ MatrixOK env ∧
    s1.IsNumericFactorizationOK_ = true ∧
    s1.IsSymbolicFactorizationOK_ = s.IsSymbolicFactorizationOK_ ∧
    s1.UseTranspose_ = s.UseTranspose_ ∧
    s1.NumNumericFact_ = s.NumNumericFact_ + 1 ∧
    s1.NumSymbolicFact_ = s.NumSymbolicFact_ + (if s.IsSymbolicFactorizationOK_ then 0 else 1) ∧
    s1.NumSolve_ = s.NumSolve_ ∧
    s1.iam = env.MyPID ∧
    s1.NumGlobalElements_ = env.Matrix.NumGlobalRows ∧
    (s1.IsLocal_ = if env.IsLocal then 1 else 0) ∧
    s1.RcondValidOnAllProcs_ = false := by
  rcases NumericFactorization_spec env s with
    ⟨-, s3, -, h3⟩ | ⟨hok, hsym, s5, hf, g1, g2, g3, h5⟩ | ⟨hok, hsym, s3, hf, g1, g2, g3, h3⟩
  · rw [h3] at h
    exact absurd h (by simp)
  · rw [h5] at h
    obtain ⟨st, -, h0, rfl⟩ := andThen_flag_ret _ _ _ h
    obtain ⟨c, -, cv⟩ := PerformNumericFactorization_control env
      { (PerformSymbolicFactorization env s5).state with IsSymbolicFactorizationOK_ := false }
    obtain ⟨d, -, -, -⟩ := PerformSymbolicFactorization_control env s5
    obtain ⟨f1, f2, f3, f4, f5, f6, -, -, -, -⟩ := hf.control
    refine ⟨h0, hok, rfl, ?_, ?_, ?_, ?_, ?_, ?_, ?_, ?_, cv⟩
    · exact c.symbolicOK.trans hsym.symm
    · exact c.useTranspose.trans (d.useTranspose.trans f3)
    · exact c.numNumeric.trans (d.numNumeric.trans f5)
    · rw [hsym]
      exact c.numSymbolic.trans (d.numSymbolic.trans f4)
    · exact c.numSolve.trans (d.numSolve.trans f6)
    · exact c.iam.trans (d.iam.trans g1)
    · exact c.rows.trans (d.rows.trans g2)
    · exact c.isLocal.trans (d.isLocal.trans g3)
  · rw [h3] at h
    obtain ⟨st, -, h0, rfl⟩ := andThen_flag_ret _ _ _ h
    obtain ⟨c, -, cv⟩ := PerformNumericFactorization_control env s3
    obtain ⟨f1, f2, f3, f4, f5, f6, -, -, -, -⟩ := hf.control
    refine ⟨h0, hok, rfl, ?_, ?_, ?_, ?_, ?_, ?_, ?_, ?_, cv⟩
    · exact c.symbolicOK.trans f1
    · exact c.useTranspose.trans f3
    · exact c.numNumeric.trans f5
    · rw [hsym]
      exact c.numSymbolic.trans f4
    · exact c.numSolve.trans f6
    · exact c.iam.trans g1
    · exact c.rows.trans g2
    · exact c.isLocal.trans g3

theorem PerformNumericFactorization_returns (env : Env V) (s : State V) (h : EngineOK env) :
    PerformNumericFactorization env s = .ret 0 (PerformNumericFactorization env s).state := by
  unfold PerformNumericFactorization
  dsimp only
  split_ifs with h1 h2 h3 h3
  · exact absurd (h _) h3
  · rfl
  · exact absurd (h _) h3
  · rfl
  · rfl

/-- With matrices that pass the assertions and a library that succeeds, `NumericFactorization`
returns `0`. -/
theorem NumericFactorization_returns (env : Env V) (s : State V) (hok : MatrixOK env)
    (he : EngineOK env) : ∃ s1, NumericFactorization env s = .ret 0 s1 := by
  rcases NumericFactorization_spec env s with
    ⟨hno, -⟩ | ⟨-, -, s5, -, -, -, -, h5⟩ | ⟨-, -, s3, -, -, -, -, h3⟩
  · exact absurd hok hno
  · rw [h5, PerformNumericFactorization_returns env _ he]
    exact ⟨_, rfl⟩
  · rw [h3, PerformNumericFactorization_returns env _ he]
    exact ⟨_, rfl⟩

/-- The factorization check of `Solve` leaves the transpose option as it is. -/
theorem Solve_factorize_ret (env : Env V) (s : State V) (status : Int) (s1 : State V)
    (h : Solve.factorize env s = .ret status s1) :
    status = 0 ∧ s1.UseTranspose_ = s.UseTranspose_ ∧ s1.NumSolve_ = s.NumSolve_ + 1 ∧
    s1.IsNumericFactorizationOK_ = true ∧
    s1.IsSymbolicFactorizationOK_ = s.IsSymbolicFactorizationOK_ := by
  have hdef : Solve.factorize env s =
      if !s.IsNumericFactorizationOK_ then NumericFactorization env (solveEntry s)
      else .ret 0 (solveEntry s) := rfl
  rw [hdef] at h
  cases hr : s.IsNumericFactorizationOK_ with
  | true =>
    simp only [hr, Bool.not_true, Bool.false_eq_true, if_false, Outcome.ret.injEq] at h
    obtain ⟨h0, rfl⟩ := h
    exact ⟨h0.symm, rfl, rfl, hr, rfl⟩
  | false =>
    simp only [hr, Bool.not_false, if_true] at h
    obtain ⟨h0, -, h1, h2, h3, -, -, h4, -⟩ := NumericFactorization_ret env _ status s1 h
    exact ⟨h0, h3, h4, h1, h2⟩

theorem Solve_reach (env : Env V) (s s1 : State V) (k : Nat)
    (hf : Solve.factorize env s = .ret 0 s1) (hr : ReachesSolve env s1 k) :
    Solve env s =
      match solveLoop env (requestOf s1) k 0 s1 with
      | (some err, s2) => .ret err s2
      | (none, s2) => .ret 0 s2 := by
  simp only [Solve, hf, Outcome.andThen, AMESOS_CHK_ERR, ne_eq, not_true_eq_false, if_false]
  exact Solve_vectors_reach env s1 k hr

/-- C5 as stated fails: on the coordinator a symbolic call that reports `-1` is followed by
`SymbolicFactorization` returning `0`, and a triangular solve that reports `1` is followed by
`Solve` returning `1` to its caller. -/
theorem engine_failure_not_fatal :
    (∃ s1, SymbolicFactorization (sampleEnv 0 matrixA (umfpackFailAt 0 (-1))) fresh = .ret 0 s1 ∧
      s1.trace = [.umfpack_di_symbolic (-1) 0]) ∧
    (∃ s1, Solve (sampleEnv 0 matrixA (umfpackFailAt 2 1)) fresh = .ret 1 s1 ∧
      s1.trace = [.umfpack_di_symbolic 0 1, .umfpack_di_numeric 0 2,
        .umfpack_di_solve .UMFPACK_At 0 1]) :=
  ⟨⟨_, rfl, rfl⟩, ⟨_, rfl, rfl⟩⟩

/-- C5, amended: on the coordinator, with matrices that pass the assertions, (1)
`SymbolicFactorization` returns `0` whatever status the symbolic call reports; (2)
`NumericFactorization` ends the process when the numeric call reports a non-zero status and
returns `0` when it reports `0`, and a `Solve` that runs this factorization ends with it; (3)
when a triangular solve reports a non-zero status, `Solve` returns that status to its caller
right after the call. -/
theorem engine_status_handling (env : Env V) (s : State V) (hpid : env.MyPID = 0)
    (hok : MatrixOK env) :
    (∃ t handle s1, SymbolicFactorization env s = .ret 0 s1 ∧
      s1.trace = t ++ [.umfpack_di_symbolic (env.umfpack t.length).status handle]) ∧
    (∃ t handle, (NumericFactorization env s).state.trace =
        t ++ [.umfpack_di_numeric (env.umfpack t.length).status handle] ∧
      ((env.umfpack t.length).status ≠ 0 → ∃ s1, NumericFactorization env s = .abort s1) ∧
      ((env.umfpack t.length).status = 0 → ∃ s1, NumericFactorization env s = .ret 0 s1)) ∧
    (∀ s1, s.IsNumericFactorizationOK_ = false →
      NumericFactorization env (solveEntry s) = .abort s1 → Solve env s = .abort s1) ∧
    (∀ s1 k m, Solve.factorize env s = .ret 0 s1 → ReachesSolve env s1 k → m < k →
      (∀ i, i < m → (env.umfpack (s1.trace.length + i)).status = 0) →
      (env.umfpack (s1.trace.length + m)).status ≠ 0 →
      ∃ s2, Solve env s = .ret (env.umfpack (s1.trace.length + m)).status s2 ∧
        s2.trace = s1.trace ++ solveEvents env (requestOf s1) s1.trace.length 0 (m + 1)) := by
  refine ⟨?_, ?_, ?_, ?_⟩
  · rcases SymbolicFactorization_spec env s with ⟨hno, -⟩ | ⟨-, s3, -, g1, -, -, h3⟩
    · exact absurd hok hno
    · obtain ⟨t, handle, ht, -⟩ :=
        PerformSymbolicFactorization_coordinator env s3 (g1.trans hpid)
      exact ⟨t, handle, _, h3, ht⟩
  · have key : ∀ x : State V, x.iam = 0 →
        NumericFactorization env s = (PerformNumericFactorization env x).andThen
          (fun _ s6 => .ret 0 { s6 with IsNumericFactorizationOK_ := true }) →
        ∃ t handle, (NumericFactorization env s).state.trace =
            t ++ [.umfpack_di_numeric (env.umfpack t.length).status handle] ∧
          ((env.umfpack t.length).status ≠ 0 → ∃ s1, NumericFactorization env s = .abort s1) ∧
          ((env.umfpack t.length).status = 0 → ∃ s1, NumericFactorization env s = .ret 0 s1) := by
      intro x hx hN
      obtain ⟨t, handle, ht, -, -, ha, hr⟩ := PerformNumericFactorization_coordinator env x hx
      refine ⟨t, handle, ?_, fun hs => ?_, fun hs => ?_⟩
      · rw [hN, andThen_flag_state]
        exact ht
      · rw [hN, ha hs]
        exact ⟨_, rfl⟩
      · rw [hN, hr hs]
        exact ⟨_, rfl⟩
    rcases NumericFactorization_spec env s with
      ⟨hno, -⟩ | ⟨-, -, s5, -, g1, -, -, h5⟩ | ⟨-, -, s3, -, g1, -, -, h3⟩
    · exact absurd hok hno
    · refine key _ ?_ h5
      exact ((PerformSymbolicFactorization_control env s5).1.iam).trans (g1.trans hpid)
    · exact key s3 (g1.trans hpid) h3
  · intro s1 hr hN
    have : Solve.factorize env s = NumericFactorization env (solveEntry s) := by
      simp [Solve.factorize, solveEntry, hr]
    simp only [Solve, this, hN, Outcome.andThen]
  · intro s1 k m hf hreach hm hzero hne
    rw [Solve_reach env s s1 k hf hreach]
    obtain ⟨m1, hm1, hst, hcase⟩ := solveLoop_spec env (requestOf s1) k 0 s1
    rcases hcase with ⟨-, h2, h3⟩ | ⟨i, h1, h2, h3, h4⟩
    · exact absurd (h3 m (h2 ▸ hm)) hne
    · have him : i = m := by
        rcases Nat.lt_trichotomy i m with hlt | heq | hgt
        · exact absurd (hzero i hlt) h3
        · exact heq
        · exact absurd (h2 m hgt) hne
      subst him
      generalize solveLoop env (requestOf s1) k 0 s1 = r at hst h4
      obtain ⟨r1, r2⟩ := r
      simp only at hst h4
      subst h4
      subst hst
      exact ⟨_, rfl, by rw [h1]⟩

/-- On the coordinator, with the sample matrix and a symbolic call that reports `-1`,
`SymbolicFactorization` returns `0`. -/
theorem engine_status_handling_witness :
    (sampleEnv 0 matrixA (umfpackFailAt 0 (-1))).MyPID = 0 ∧
    MatrixOK (sampleEnv 0 matrixA (umfpackFailAt 0 (-1))) ∧
    ∃ t handle s1, SymbolicFactorization (sampleEnv 0 matrixA (umfpackFailAt 0 (-1))) fresh =
        .ret 0 s1 ∧
      s1.trace = t ++ [.umfpack_di_symbolic
        ((sampleEnv 0 matrixA (umfpackFailAt 0 (-1))).umfpack t.length).status handle] :=
  ⟨rfl, ⟨rfl, fun h => absurd h (by decide)⟩,
    (engine_status_handling (sampleEnv 0 matrixA (umfpackFailAt 0 (-1))) fresh rfl
      ⟨rfl, fun h => absurd h (by decide)⟩).1⟩

/-- C6 as stated fails: with vectors of two columns and a first triangular solve that reports
`1`, the coordinator issues one triangular solve, not two. -/
theorem Solve_stops_at_failed_column :
    ReachesSolve (sampleEnv 0 matrixA (umfpackFailAt 2 1))
      (Solve.factorize (sampleEnv 0 matrixA (umfpackFailAt 2 1)) fresh).state 2 ∧
    (Solve (sampleEnv 0 matrixA (umfpackFailAt 2 1)) fresh).state.trace =
      (Solve.factorize (sampleEnv 0 matrixA (umfpackFailAt 2 1)) fresh).state.trace ++
        [.umfpack_di_solve .UMFPACK_At 0 1] :=
  ⟨⟨_, _, rfl, rfl, rfl, rfl, Or.inl rfl, rfl, rfl, rfl, rfl, rfl⟩, rfl⟩

/-- C6, amended: when `Solve` enters the solve loop on the coordinator with vectors of `k`
columns, it issues the triangular solves for the columns `0`, `1`, ... in this order, every
one with request `UMFPACK_A` when the transpose option is set and `UMFPACK_At` when it is
not, and stops after the first one that reports a non-zero status, which it returns: when
one of the `k` solves would report a non-zero status, the last solve issued is the first
such one, be it for the last column or an earlier one, and `Solve` returns its status. When
every solve reports `0` there are exactly `k` of them, one per column, and `Solve` returns
`0`. -/
theorem Solve_issues_solves (env : Env V) (s s1 : State V) (k : Nat)
    (hf : Solve.factorize env s = .ret 0 s1) (hr : ReachesSolve env s1 k) :
    ∃ m, m ≤ k ∧
      (Solve env s).state.trace = s1.trace ++ (List.range m).map (fun j =>
        Event.umfpack_di_solve
          (if s.UseTranspose_ then UmfpackRequest.UMFPACK_A else UmfpackRequest.UMFPACK_At)
          j (env.umfpack (s1.trace.length + j)).status) ∧
      (∀ j, j + 1 < m → (env.umfpack (s1.trace.length + j)).status = 0) ∧
      ((∀ j, j < k → (env.umfpack (s1.trace.length + j)).status = 0) →
        m = k ∧ ∃ s2, Solve env s = .ret 0 s2) ∧
      ((∃ j, j < k ∧ (env.umfpack (s1.trace.length + j)).status ≠ 0) →
        ∃ j s2, m = j + 1 ∧ (env.umfpack (s1.trace.length + j)).status ≠ 0 ∧
          Solve env s = .ret (env.umfpack (s1.trace.length + j)).status s2) ∧
      (m < k → ∃ j s2, m = j + 1 ∧ (env.umfpack (s1.trace.length + j)).status ≠ 0 ∧
        Solve env s = .ret (env.umfpack (s1.trace.length + j)).status s2) := by
  obtain ⟨-, hu, -, -, -⟩ := Solve_factorize_ret env s 0 s1 hf
  have hreq : requestOf s1 =
      if s.UseTranspose_ then UmfpackRequest.UMFPACK_A else UmfpackRequest.UMFPACK_At := by
    simp only [requestOf, UseTranspose, hu]
  rw [Solve_reach env s s1 k hf hr]
  obtain ⟨m, hm, hst, hcase⟩ := solveLoop_spec env (requestOf s1) k 0 s1
  generalize solveLoop env (requestOf s1) k 0 s1 = r at hst hcase
  obtain ⟨r1, r2⟩ := r
  simp only at hst hcase
  subst hst
  have htrace : (s1.trace ++ solveEvents env (requestOf s1) s1.trace.length 0 m) =
      s1.trace ++ (List.range m).map (fun j =>
        Event.umfpack_di_solve
          (if s.UseTranspose_ then UmfpackRequest.UMFPACK_A else UmfpackRequest.UMFPACK_At)
          j (env.umfpack (s1.trace.length + j)).status) := by
    simp only [solveEvents, hreq, Nat.zero_add]
  rcases hcase with ⟨h1, h2, h3⟩ | ⟨i, h1, h2, h3, h4⟩
  · subst h1
    refine ⟨m, hm, htrace, fun j hj => h3 j (by omega), fun _ => ⟨h2, _, rfl⟩, ?_,
      fun hlt => ?_⟩
    · rintro ⟨j, hj, hne⟩
      exact absurd (h3 j (h2 ▸ hj)) hne
    · omega
  · subst h4
    refine ⟨m, hm, htrace, fun j hj => h2 j (by omega), fun hall => ?_,
      fun _ => ⟨i, _, h1, h3, rfl⟩, fun _ => ⟨i, _, h1, h3, rfl⟩⟩
    exact absurd (hall i (by omega)) h3

/-- Witness of C6, amended: a `Solve` of the coordinator from the constructed state, with the
sample matrix and vectors of two columns, whose second and last triangular solve reports
`1`: both solves are issued and `Solve` returns `1`. -/
theorem Solve_issues_solves_witness :
    Solve.factorize (sampleEnv 0 matrixA (umfpackFailAt 3 1)) fresh =
      .ret 0 (Solve.factorize (sampleEnv 0 matrixA (umfpackFailAt 3 1)) fresh).state ∧
    ReachesSolve (sampleEnv 0 matrixA (umfpackFailAt 3 1))
      (Solve.factorize (sampleEnv 0 matrixA (umfpackFailAt 3 1)) fresh).state 2 ∧
    (∃ j, j < 2 ∧ ((sampleEnv 0 matrixA (umfpackFailAt 3 1)).umfpack
      ((Solve.factorize (sampleEnv 0 matrixA (umfpackFailAt 3 1)) fresh).state.trace.length
        + j)).status ≠ 0) ∧
    ∃ m, m ≤ 2 ∧
      (Solve (sampleEnv 0 matrixA (umfpackFailAt 3 1)) fresh).state.trace =
        (Solve.factorize (sampleEnv 0 matrixA (umfpackFailAt 3 1)) fresh).state.trace ++
        (List.range m).map (fun j =>
          Event.umfpack_di_solve
            (if fresh.UseTranspose_ then UmfpackRequest.UMFPACK_A else UmfpackRequest.UMFPACK_At)
            j ((sampleEnv 0 matrixA (umfpackFailAt 3 1)).umfpack
              ((Solve.factorize (sampleEnv 0 matrixA (umfpackFailAt 3 1)) fresh).state.trace.length
                + j)).status) ∧
      ∃ j s2, m = j + 1 ∧
        ((sampleEnv 0 matrixA (umfpackFailAt 3 1)).umfpack
          ((Solve.factorize (sampleEnv 0 matrixA (umfpackFailAt 3 1)) fresh).state.trace.length
            + j)).status ≠ 0 ∧
        Solve (sampleEnv 0 matrixA (umfpackFailAt 3 1)) fresh =
          .ret ((sampleEnv 0 matrixA (umfpackFailAt 3 1)).umfpack
            ((Solve.factorize (sampleEnv 0 matrixA (umfpackFailAt 3 1)) fresh).state.trace.length
              + j)).status s2 :=
  ⟨rfl, ⟨_, _, rfl, rfl, rfl, rfl, Or.inl rfl, rfl, rfl, rfl, rfl, rfl⟩,
    ⟨1, by decide, by decide⟩,
    (Solve_issues_solves (sampleEnv 0 matrixA (umfpackFailAt 3 1)) fresh
      (Solve.factorize (sampleEnv 0 matrixA (umfpackFailAt 3 1)) fresh).state 2 rfl
      ⟨_, _, rfl, rfl, rfl, rfl, Or.inl rfl, rfl, rfl, rfl, rfl, rfl⟩).imp fun _ h =>
        ⟨h.1, h.2.1, h.2.2.2.2.1 ⟨1, by decide, by decide⟩⟩⟩

theorem view_ite (c : Prop) {d : Decidable c} (x y : State V) (h : y.view = x.view) :
    (@ite _ c d y x).view = x.view := by
  split
  · exact h
  · rfl

/-- `SetParameters` returns `0` and leaves the flags, the handles, the estimate, the counters
and the trace as they are. -/
theorem SetParameters_spec (pl : ParameterList V) (s : State V) :
    ∃ s1, SetParameters pl s = .ret 0 s1 ∧ s1.view = s.view := by
  refine ⟨_, rfl, ?_⟩
  iterate 6
    apply Eq.trans
    · exact view_ite _ _ _ rfl
  exact view_ite _ _ _ rfl

theorem GetRcond_spec (env : Env V) (s : State V) :
    (GetRcond env s).2.IsSymbolicFactorizationOK_ = s.IsSymbolicFactorizationOK_ ∧
    (GetRcond env s).2.IsNumericFactorizationOK_ = s.IsNumericFactorizationOK_ ∧
    (GetRcond env s).2.IsLocal_ = s.IsLocal_ := by
  unfold GetRcond
  dsimp only
  split_ifs <;> exact ⟨rfl, rfl, rfl⟩

/-- The vector part of `Solve` changes the trace only, and adds triangular solves only. -/
theorem Solve_vectors_frame (env : Env V) (s : State V) :
    ∃ t, (Solve.vectors env s).state = { s with trace := t } ∧
      Extends (fun e => e.isSolve = true) s.trace t := by
  have hloop : ∀ sys k, ∃ t, (solveLoop env sys k 0 s).2 = { s with trace := t } ∧
      Extends (fun e => e.isSolve = true) s.trace t := by
    intro sys k
    obtain ⟨m, -, hst, -⟩ := solveLoop_spec env sys k 0 s
    refine ⟨_, hst, Extends.of_append _ _ fun e he => ?_⟩
    simp only [solveEvents, List.mem_map] at he
    obtain ⟨i, -, rfl⟩ := he
    rfl
  have hself : ∃ t, s = { s with trace := t } ∧ Extends (fun e => e.isSolve = true) s.trace t :=
    ⟨s.trace, rfl, Extends.refl _ _⟩
  unfold Solve.vectors
  split
  · rename_i vecX vecB hX hB
    dsimp only
    split
    · exact hself
    · generalize (if UseTranspose s = true then UmfpackRequest.UMFPACK_A
        else UmfpackRequest.UMFPACK_At) = sys
      obtain ⟨t, ht, hext⟩ := hloop sys vecX.NumVectors
      split_ifs <;>
        first
        | exact hself
        | (split <;> rename_i heq <;> rw [heq] at ht <;> exact ⟨t, ht, hext⟩)
  · split
    · exact hself
    · exact hself

/-- With vectors that pass the checks and a library that succeeds, the vector part of `Solve`
returns `0`. -/
theorem Solve_vectors_returns (env : Env V) (s : State V)
    (hloc : s.IsLocal_ = 1 ∨ s.IsLocal_ = 0)
    (hv : VectorsOK env s.iam s.IsLocal_ s.NumGlobalElements_) (he : EngineOK env) :
    Solve.vectors env s = .ret 0 (Solve.vectors env s).state := by
  obtain ⟨X, B, hX, hB, hk, hviews⟩ := hv
  by_cases hiam : s.iam = 0
  · obtain ⟨v1, v2, v3, v4⟩ := hviews hiam
    have hr : ReachesSolve env s X.NumVectors :=
      ⟨X, B, hX, hB, rfl, hk.symm, hloc, hiam, v1, v2, v3, v4⟩
    rw [Solve_vectors_reach env s _ hr]
    obtain ⟨m, -, -, hcase⟩ := solveLoop_spec env (requestOf s) X.NumVectors 0 s
    rcases hcase with ⟨h1, -, -⟩ | ⟨i, -, -, h3, -⟩
    · generalize solveLoop env (requestOf s) X.NumVectors 0 s = r at h1
      obtain ⟨r1, r2⟩ := r
      simp only at h1
      subst h1
      rfl
    · exact absurd (he _) h3
  · unfold Solve.vectors
    rw [hX, hB]
    simp only [hk, ne_eq, not_true_eq_false, if_false, hloc, hiam, Outcome.state]

/-- A `SymbolicFactorization` that returns, returns `0`, leaves both flags not set and has
raised the symbolic counter by one. -/
theorem SymbolicFactorization_ret (env : Env V) (s : State V) (status : Int) (s1 : State V)
    (h : SymbolicFactorization env s = .ret status s1) :
    status = 0 ∧ s1.IsSymbolicFactorizationOK_ = false ∧
    s1.IsNumericFactorizationOK_ = false ∧
    s1.NumSymbolicFact_ = s.NumSymbolicFact_ + 1 := by
  rcases SymbolicFactorization_spec env s with ⟨-, s3, -, h3⟩ | ⟨-, s3, hf, -, -, -, h3⟩
  · rw [h3] at h
    exact absurd h (by simp)
  · rw [h3] at h
    simp only [Outcome.ret.injEq] at h
    obtain ⟨h0, rfl⟩ := h
    obtain ⟨d, -, -, -⟩ := PerformSymbolicFactorization_control env s3
    obtain ⟨-, f2, -, f4, -, -, -, -, -, -⟩ := hf.control
    exact ⟨h0.symm, rfl, d.numericOK.trans f2, d.numSymbolic.trans f4⟩

/-- In a reachable state in which the numeric factorization is ready, `IsLocal_` is `1` or
`0`, as the last `ConvertToSerial` has set it. -/
theorem Reachable.local_flag {s : State V} (h : Reachable s)
    (hr : s.IsNumericFactorizationOK_ = true) : s.IsLocal_ = 1 ∨ s.IsLocal_ = 0 := by
  induction h with
  | construct u =>
    have hfalse : (Amesos.construct u : State V).IsNumericFactorizationOK_ = false := rfl
    rw [hfalse] at hr
    exact absurd hr (by simp)
  | call env c s status s1 _ hrun ih =>
    cases c with
    | SetParameters pl =>
      obtain ⟨s2, h2, h3⟩ := SetParameters_spec pl s
      have hrun1 : SetParameters pl s = .ret status s1 := hrun
      rw [h2] at hrun1
      simp only [Outcome.ret.injEq] at hrun1
      obtain ⟨-, rfl⟩ := hrun1
      have hloc : s2.IsLocal_ = s.IsLocal_ := congrArg EngineView.isLocal h3
      have hnum : s2.IsNumericFactorizationOK_ = s.IsNumericFactorizationOK_ :=
        congrArg EngineView.numericOK h3
      rw [hloc]
      exact ih (hnum.symm.trans hr)
    | SymbolicFactorization =>
      have hrun1 : SymbolicFactorization env s = .ret status s1 := hrun
      obtain ⟨-, -, h3, -⟩ := SymbolicFactorization_ret env s status s1 hrun1
      rw [h3] at hr
      exact absurd hr (by decide)
    | NumericFactorization =>
      have hrun1 : NumericFactorization env s = .ret status s1 := hrun
      obtain ⟨-, -, -, -, -, -, -, -, -, -, h9, -⟩ := NumericFactorization_ret env s status s1 hrun1
      rw [h9]
      cases env.IsLocal
      · exact Or.inr rfl
      · exact Or.inl rfl
    | Solve =>
      have hrun1 : Solve env s = .ret status s1 := hrun
      unfold Solve at hrun1
      cases hf : Solve.factorize env s with
      | abort s0 =>
        rw [hf] at hrun1
        exact absurd hrun1 (by simp [Outcome.andThen])
      | ret st s0 =>
        have hloc0 : s0.IsLocal_ = 1 ∨ s0.IsLocal_ = 0 := by
          have hdef : Solve.factorize env s =
              if !s.IsNumericFactorizationOK_ then NumericFactorization env (solveEntry s)
              else .ret 0 (solveEntry s) := rfl
          rw [hdef] at hf
          cases hready : s.IsNumericFactorizationOK_ with
          | true =>
            simp only [hready, Bool.not_true, Bool.false_eq_true, if_false,
              Outcome.ret.injEq] at hf
            rw [← hf.2]
            exact ih hready
          | false =>
            simp only [hready, Bool.not_false, if_true] at hf
            obtain ⟨-, -, -, -, -, -, -, -, -, -, h9, -⟩ :=
              NumericFactorization_ret env _ st s0 hf
            rw [h9]
            cases env.IsLocal
            · exact Or.inr rfl
            · exact Or.inl rfl
        obtain ⟨h0, -⟩ := Solve_factorize_ret env s st s0 hf
        subst h0
        rw [hf] at hrun1
        simp only [Outcome.andThen, AMESOS_CHK_ERR, ne_eq, not_true_eq_false, if_false] at hrun1
        obtain ⟨t, ht, -⟩ := Solve_vectors_frame env s0
        rw [hrun1] at ht
        simp only [Outcome.state] at ht
        rw [ht]
        exact hloc0
    | GetRcond =>
      have hrun1 : Outcome.ret 0 (GetRcond env s).2 = .ret status s1 := hrun
      simp only [Outcome.ret.injEq] at hrun1
      obtain ⟨-, rfl⟩ := hrun1
      obtain ⟨-, g2, g3⟩ := GetRcond_spec env s
      rw [g3]
      exact ih (g2.symm.trans hr)

theorem Reachable.symbolic_flag {s : State V} (h : Reachable s) :
    s.IsSymbolicFactorizationOK_ = false := by
  induction h with
  | construct u => rfl
  | call env c s status s1 _ hrun ih =>
    cases c with
    | SetParameters pl =>
      obtain ⟨s2, h2, h3⟩ := SetParameters_spec pl s
      have hrun1 : SetParameters pl s = .ret status s1 := hrun
      rw [h2] at hrun1
      simp only [Outcome.ret.injEq] at hrun1
      rw [← hrun1.2]
      exact (congrArg EngineView.symbolicOK h3).trans ih
    | SymbolicFactorization =>
      have hrun1 : SymbolicFactorization env s = .ret status s1 := hrun
      rcases SymbolicFactorization_spec env s with ⟨-, s3, -, h3⟩ | ⟨-, s3, -, -, -, -, h3⟩
      · rw [h3] at hrun1
        exact absurd hrun1 (by simp)
      · rw [h3] at hrun1
        simp only [Outcome.ret.injEq] at hrun1
        rw [← hrun1.2]
    | NumericFactorization =>
      have hrun1 : NumericFactorization env s = .ret status s1 := hrun
      obtain ⟨-, -, -, h4, -⟩ := NumericFactorization_ret env s status s1 hrun1
      rw [h4, ih]
    | Solve =>
      have hrun1 : Solve env s = .ret status s1 := hrun
      unfold Solve at hrun1
      cases hf : Solve.factorize env s with
      | abort s0 =>
        rw [hf] at hrun1
        exact absurd hrun1 (by simp [Outcome.andThen])
      | ret st s0 =>
        obtain ⟨h0, -, -, -, hsym⟩ := Solve_factorize_ret env s st s0 hf
        subst h0
        rw [hf] at hrun1
        simp only [Outcome.andThen, AMESOS_CHK_ERR, ne_eq, not_true_eq_false, if_false] at hrun1
        obtain ⟨t, ht, -⟩ := Solve_vectors_frame env s0
        rw [hrun1] at ht
        simp only [Outcome.state] at ht
        rw [ht]
        exact hsym.trans ih
    | GetRcond =>
      have hrun1 : Outcome.ret 0 (GetRcond env s).2 = .ret status s1 := hrun
      simp only [Outcome.ret.injEq] at hrun1
      rw [← hrun1.2, (GetRcond_spec env s).1, ih]

theorem Extends.countP_eq {p : Event → Prop} {t t1 : List Event} (q : Event → Bool)
    (h : Extends p t t1) (hpq : ∀ e, p e → q e = false) : t1.countP q = t.countP q := by
  obtain ⟨added, rfl, hall⟩ := h
  rw [List.countP_append]
  have : added.countP q = 0 := by
    rw [List.countP_eq_zero]
    intro e he
    simp [hpq e (hall e he)]
  omega

/-- The engine calls of the symbolic step: one symbolic call on the coordinator, none elsewhere,
and no numeric call. -/
theorem PerformSymbolicFactorization_calls (env : Env V) (s : State V) :
    (PerformSymbolicFactorization env s).state.trace.countP Event.isSymbolic =
      s.trace.countP Event.isSymbolic + (if s.iam = 0 then 1 else 0) ∧
    (PerformSymbolicFactorization env s).state.trace.countP Event.isNumeric =
      s.trace.countP Event.isNumeric := by
  unfold PerformSymbolicFactorization
  by_cases h1 : s.Symbolic = 0 <;> by_cases h2 : s.iam = 0 <;>
    simp [h1, h2, Outcome.state, List.countP_append, Event.isSymbolic, Event.isNumeric]

/-- The engine calls of the numeric step: one numeric call on the coordinator, none elsewhere,
and no symbolic call. -/
theorem PerformNumericFactorization_calls (env : Env V) (s : State V) :
    (PerformNumericFactorization env s).state.trace.countP Event.isSymbolic =
      s.trace.countP Event.isSymbolic ∧
    (PerformNumericFactorization env s).state.trace.countP Event.isNumeric =
      s.trace.countP Event.isNumeric + (if s.iam = 0 then 1 else 0) := by
  unfold PerformNumericFactorization
  by_cases h1 : s.Numeric = 0 <;> by_cases h2 : s.iam = 0 <;>
    simp only [h1, h2, ne_eq, not_true_eq_false, not_false_eq_true, if_true, if_false] <;>
    (try split_ifs) <;>
    simp [Outcome.state, List.countP_append, Event.isSymbolic, Event.isNumeric]

theorem andThen_flag_view (o : Outcome V) :
    (o.andThen fun _ s6 => .ret 0 { s6 with IsNumericFactorizationOK_ := true }).state.trace =
      o.state.trace ∧
    (o.andThen fun _ s6 =>
      .ret 0 { s6 with IsNumericFactorizationOK_ := true }).state.NumSymbolicFact_ =
      o.state.NumSymbolicFact_ := by
  cases o <;> exact ⟨rfl, rfl⟩

/-- A `NumericFactorization` entered with the symbolic flag not set, on matrices that pass
the assertions, runs `SymbolicFactorization` once: the symbolic counter goes up by one and,
on the coordinator, the trace gains one symbolic and one numeric engine call. This holds
whether the numeric call then succeeds or ends the process. -/
theorem NumericFactorization_runs_symbolic (env : Env V) (s : State V)
    (hsym : s.IsSymbolicFactorizationOK_ = false) (hok : MatrixOK env) :
    (NumericFactorization env s).state.NumSymbolicFact_ = s.NumSymbolicFact_ + 1 ∧
    (env.MyPID = 0 →
      (NumericFactorization env s).state.trace.countP Event.isSymbolic =
        s.trace.countP Event.isSymbolic + 1 ∧
      (NumericFactorization env s).state.trace.countP Event.isNumeric =
        s.trace.countP Event.isNumeric + 1) := by
  rcases NumericFactorization_spec env s with
    ⟨hno, -⟩ | ⟨-, -, s5, hf, g1, -, -, h5⟩ | ⟨-, htrue, -⟩
  · exact absurd hok hno
  · obtain ⟨c, -, -⟩ := PerformNumericFactorization_control env
      { (PerformSymbolicFactorization env s5).state with IsSymbolicFactorizationOK_ := false }
    obtain ⟨d, -, -, -⟩ := PerformSymbolicFactorization_control env s5
    obtain ⟨-, -, -, f4, -, -, -, -, -, -⟩ := hf.control
    obtain ⟨n1, n2⟩ := PerformNumericFactorization_calls env
      { (PerformSymbolicFactorization env s5).state with IsSymbolicFactorizationOK_ := false }
    obtain ⟨m1, m2⟩ := PerformSymbolicFactorization_calls env s5
    have hiam : ({ (PerformSymbolicFactorization env s5).state with
        IsSymbolicFactorizationOK_ := false } : State V).iam = env.MyPID := d.iam.trans g1
    rw [h5, (andThen_flag_view _).1, (andThen_flag_view _).2]
    refine ⟨c.numSymbolic.trans (d.numSymbolic.trans f4), fun hpid => ?_⟩
    rw [hiam] at n2
    rw [g1] at m1
    simp only [hpid, if_true] at n2 m1
    rw [hf.trace] at m1 m2
    exact ⟨n1.trans m1, n2.trans (by rw [m2]; rfl)⟩
  · rw [hsym] at htrue
    exact absurd htrue (by simp)

/-- C7: in every state reachable from construction, with vectors that pass the checks and a
library that succeeds, a `Solve` entered while the numeric factorization is not ready runs
`NumericFactorization` once and, inside it, `SymbolicFactorization` once, before any
triangular solve: it returns `0`, the numeric, symbolic and solve counters each go up by
one, the numeric flag is set afterwards, the factorization adds no triangular solve to the
trace and what follows it are triangular solves only, and on the coordinator the trace gains
one symbolic and one numeric engine call. A `Solve` entered while the numeric factorization
is ready returns `0`, leaves the numeric and symbolic counters as they are, and adds
triangular solves only. -/
theorem Solve_chaining (env : Env V) (s : State V) (hs : Reachable s) (he : EngineOK env) :
    (s.IsNumericFactorizationOK_ = false → MatrixOK env →
      VectorsOK env env.MyPID (if env.IsLocal then 1 else 0) env.Matrix.NumGlobalRows →
      ∃ s0 s1, NumericFactorization env (solveEntry s) = .ret 0 s0 ∧ Solve env s = .ret 0 s1 ∧
        s1.NumNumericFact_ = s.NumNumericFact_ + 1 ∧
        s1.NumSymbolicFact_ = s.NumSymbolicFact_ + 1 ∧
        s1.NumSolve_ = s.NumSolve_ + 1 ∧
        s1.IsNumericFactorizationOK_ = true ∧
        Extends (fun e => e.isSolve = false) s.trace s0.trace ∧
        Extends (fun e => e.isSolve = true) s0.trace s1.trace ∧
        (env.MyPID = 0 →
          s1.trace.countP Event.isSymbolic = s.trace.countP Event.isSymbolic + 1 ∧
          s1.trace.countP Event.isNumeric = s.trace.countP Event.isNumeric + 1)) ∧
    (s.IsNumericFactorizationOK_ = true →
      VectorsOK env s.iam s.IsLocal_ s.NumGlobalElements_ →
      ∃ s1, Solve env s = .ret 0 s1 ∧
        s1.NumNumericFact_ = s.NumNumericFact_ ∧
        s1.NumSymbolicFact_ = s.NumSymbolicFact_ ∧
        s1.NumSolve_ = s.NumSolve_ + 1 ∧
        s1.IsNumericFactorizationOK_ = true ∧
        Extends (fun e => e.isSolve = true) s.trace s1.trace) := by
  have hsym := hs.symbolic_flag
  constructor
  · intro hr hok hv
    obtain ⟨s0, h0⟩ := NumericFactorization_returns env (solveEntry s) hok he
    obtain ⟨-, -, r1, -, -, r4, r5, r6, r7, r8, r9, -⟩ :=
      NumericFactorization_ret env (solveEntry s) 0 s0 h0
    have hfac : Solve.factorize env s = .ret 0 s0 := by
      rw [← h0]
      simp [Solve.factorize, solveEntry, hr]
    have hv0 : VectorsOK env s0.iam s0.IsLocal_ s0.NumGlobalElements_ := by
      rw [r7, r8, r9]
      exact hv
    have hsolve : Solve env s = .ret 0 (Solve.vectors env s0).state := by
      simp only [Solve, hfac, Outcome.andThen, AMESOS_CHK_ERR, ne_eq, not_true_eq_false, if_false]
      have hloc0 : s0.IsLocal_ = 1 ∨ s0.IsLocal_ = 0 := by
        rw [r9]
        cases env.IsLocal
        · exact Or.inr rfl
        · exact Or.inl rfl
      exact Solve_vectors_returns env s0 hloc0 hv0 he
    obtain ⟨t, ht, hext⟩ := Solve_vectors_frame env s0
    have htr := NumericFactorization_trace env (solveEntry s)
    rw [h0] at htr
    have hcalls := NumericFactorization_runs_symbolic env (solveEntry s) hsym hok
    rw [h0] at hcalls
    refine ⟨s0, _, h0, hsolve, ?_, ?_, ?_, ?_, htr, ?_, fun hpid => ?_⟩
    · rw [ht]
      exact r4
    · rw [ht]
      exact hcalls.1
    · rw [ht]
      exact r6
    · rw [ht]
      exact r1
    · rw [ht]
      exact hext
    · rw [ht]
      obtain ⟨c1, c2⟩ := hcalls.2 hpid
      constructor
      · refine Eq.trans ?_ c1
        exact hext.countP_eq _ (fun e h => by cases e <;> simp_all [Event.isSolve, Event.isSymbolic])
      · refine Eq.trans ?_ c2
        exact hext.countP_eq _ (fun e h => by cases e <;> simp_all [Event.isSolve, Event.isNumeric])
  · intro hr hv
    have hfac : Solve.factorize env s = .ret 0 (solveEntry s) := by
      simp [Solve.factorize, solveEntry, hr]
    have hsolve : Solve env s = .ret 0 (Solve.vectors env (solveEntry s)).state := by
      simp only [Solve, hfac, Outcome.andThen, AMESOS_CHK_ERR, ne_eq, not_true_eq_false, if_false]
      exact Solve_vectors_returns env (solveEntry s) (hs.local_flag hr) hv he
    obtain ⟨t, ht, hext⟩ := Solve_vectors_frame env (solveEntry s)
    refine ⟨_, hsolve, ?_, ?_, ?_, ?_, ?_⟩
    · rw [ht]
      rfl
    · rw [ht]
      rfl
    · rw [ht]
      rfl
    · rw [ht]
      exact hr
    · rw [ht]
      exact hext

/-- A `Solve` of the coordinator from the constructed state, with the sample matrix and a
library that succeeds, runs each factorization once. -/
theorem Solve_chaining_witness :
    Reachable fresh ∧ EngineOK (sampleEnv 0 matrixA umfpackOk) ∧
    fresh.IsNumericFactorizationOK_ = false ∧ MatrixOK (sampleEnv 0 matrixA umfpackOk) ∧
    ∃ s0 s1, NumericFactorization (sampleEnv 0 matrixA umfpackOk) (solveEntry fresh) = .ret 0 s0 ∧
      Solve (sampleEnv 0 matrixA umfpackOk) fresh = .ret 0 s1 ∧
      s1.NumNumericFact_ = fresh.NumNumericFact_ + 1 ∧
      s1.NumSymbolicFact_ = fresh.NumSymbolicFact_ + 1 ∧
      s1.NumSolve_ = fresh.NumSolve_ + 1 ∧
      s1.IsNumericFactorizationOK_ = true :=
  ⟨Reachable.construct _, fun _ => rfl, rfl, ⟨rfl, fun h => absurd h (by decide)⟩,
    ((Solve_chaining (sampleEnv 0 matrixA umfpackOk) fresh (Reachable.construct _)
      (fun _ => rfl)).1 rfl ⟨rfl, fun h => absurd h (by decide)⟩
      ⟨_, _, rfl, rfl, rfl, fun _ => ⟨rfl, rfl, rfl, rfl⟩⟩).imp fun _ h =>
        h.imp fun _ h => ⟨h.1, h.2.1, h.2.2.1, h.2.2.2.1, h.2.2.2.2.1, h.2.2.2.2.2.1⟩⟩

/-- C8: the symbolic flag is not set in any state reachable from construction by
`SetParameters`, `SymbolicFactorization`, `NumericFactorization`, `Solve` and `GetRcond`
calls; a `SymbolicFactorization` that returns, returns `0` and leaves both flags not set;
hence every `NumericFactorization` on a reachable state, also one that directly follows a
`SymbolicFactorization`, runs `SymbolicFactorization` once: the symbolic counter goes up by
exactly one (on the coordinator the trace gains exactly one symbolic engine call), and with
a library that succeeds the call returns `0`. -/
theorem symbolic_flag_never_set :
    (∀ s : State V, Reachable s → s.IsSymbolicFactorizationOK_ = false) ∧
    (∀ (env : Env V) (s : State V) status s1, SymbolicFactorization env s = .ret status s1 →
      status = 0 ∧ s1.IsSymbolicFactorizationOK_ = false ∧
      s1.IsNumericFactorizationOK_ = false ∧
      s1.NumSymbolicFact_ = s.NumSymbolicFact_ + 1) ∧
    (∀ (env : Env V) (s : State V), Reachable s → MatrixOK env →
      (NumericFactorization env s).state.NumSymbolicFact_ = s.NumSymbolicFact_ + 1 ∧
      (env.MyPID = 0 →
        (NumericFactorization env s).state.trace.countP Event.isSymbolic =
          s.trace.countP Event.isSymbolic + 1) ∧
      (EngineOK env → ∃ s1, NumericFactorization env s = .ret 0 s1 ∧
        s1.NumSymbolicFact_ = s.NumSymbolicFact_ + 1)) ∧
    (∀ (env env1 : Env V) (s : State V) status s1, Reachable s →
      SymbolicFactorization env s = .ret status s1 → MatrixOK env1 →
      (NumericFactorization env1 s1).state.NumSymbolicFact_ = s.NumSymbolicFact_ + 2) := by
  have hsymret : ∀ (env : Env V) (s : State V) status s1,
      SymbolicFactorization env s = .ret status s1 →
      status = 0 ∧ s1.IsSymbolicFactorizationOK_ = false ∧
      s1.IsNumericFactorizationOK_ = false ∧
      s1.NumSymbolicFact_ = s.NumSymbolicFact_ + 1 := SymbolicFactorization_ret
  refine ⟨fun s hs => hs.symbolic_flag, hsymret, fun env s hs hok => ?_,
    fun env env1 s status s1 hs h hok => ?_⟩
  · obtain ⟨h1, h2⟩ := NumericFactorization_runs_symbolic env s hs.symbolic_flag hok
    refine ⟨h1, fun hpid => (h2 hpid).1, fun he => ?_⟩
    obtain ⟨s1, hs1⟩ := NumericFactorization_returns env s hok he
    rw [hs1] at h1
    exact ⟨s1, hs1, h1⟩
  · obtain ⟨-, g1, -, g3⟩ := hsymret env s status s1 h
    rw [(NumericFactorization_runs_symbolic env1 s1 g1 hok).1, g3]

/-- From the constructed state, and again right after an explicit `SymbolicFactorization`, a
`NumericFactorization` of the coordinator with the sample matrix raises the symbolic counter
by one. -/
theorem symbolic_flag_never_set_witness :
    Reachable fresh ∧ MatrixOK (sampleEnv 0 matrixA umfpackOk) ∧
    fresh.IsSymbolicFactorizationOK_ = false ∧
    (NumericFactorization (sampleEnv 0 matrixA umfpackOk) fresh).state.NumSymbolicFact_ =
      fresh.NumSymbolicFact_ + 1 ∧
    (NumericFactorization (sampleEnv 0 matrixA umfpackOk)
      (SymbolicFactorization (sampleEnv 0 matrixA umfpackOk) fresh).state).state.NumSymbolicFact_ =
      fresh.NumSymbolicFact_ + 2 :=
  ⟨Reachable.construct _, ⟨rfl, fun h => absurd h (by decide)⟩,
    (@symbolic_flag_never_set Int _ _ _).1 fresh (Reachable.construct _),
    ((@symbolic_flag_never_set Int _ _ _).2.2.1 (sampleEnv 0 matrixA umfpackOk) fresh
      (Reachable.construct _) ⟨rfl, fun h => absurd h (by decide)⟩).1,
    (@symbolic_flag_never_set Int _ _ _).2.2.2 (sampleEnv 0 matrixA umfpackOk)
      (sampleEnv 0 matrixA umfpackOk) fresh 0 _ (Reachable.construct _) rfl
      ⟨rfl, fun h => absurd h (by decide)⟩⟩

end OrchestratorFacts

/-! ## The handles -/

section Handles

variable {V : Type} [Add V] [Zero V] [DecidableEq V]

theorem liveOf_length (h : Nat) : (liveOf h).length ≤ 1 := by
  unfold liveOf
  split <;> simp

theorem KindInv.nil (ob rel : Event → Option Nat) : KindInv ob rel [] 0 := by
  refine ⟨fun p hp => ?_, by simp [liveOf], by simp⟩
  rw [List.prefix_nil] at hp
  subst hp
  exact ⟨⟨[], by simp, by simp⟩, by simp⟩

theorem KindInv.other {ob rel : Event → Option Nat} {t : List Event} {h : Nat} (e : Event)
    (h1 : ob e = none) (h2 : rel e = none) (hinv : KindInv ob rel t h) :
    KindInv ob rel (t ++ [e]) h := by
  obtain ⟨hp, heq, hb⟩ := hinv
  have hob : (t ++ [e]).filterMap ob = t.filterMap ob := by
    simp [List.filterMap_append, List.filterMap_cons, h1]
  have hrel : (t ++ [e]).filterMap rel = t.filterMap rel := by
    simp [List.filterMap_append, List.filterMap_cons, h2]
  refine ⟨fun p hpre => ?_, by rw [hob, hrel]; exact heq, fun x hx => ?_⟩
  · rcases List.prefix_concat_iff.1 hpre with rfl | hpre
    · rw [Ledger, hob, hrel]
      exact hp t (List.prefix_refl t)
    · exact hp p hpre
  · rw [hob] at hx
    have := hb x hx
    simp only [List.length_append, List.length_singleton]
    omega

theorem KindInv.release {ob rel : Event → Option Nat} {t : List Event} {h : Nat} (e : Event)
    (h0 : h ≠ 0) (h1 : ob e = none) (h2 : rel e = some h) (hinv : KindInv ob rel t h) :
    KindInv ob rel (t ++ [e]) 0 := by
  obtain ⟨hp, heq, hb⟩ := hinv
  have hob : (t ++ [e]).filterMap ob = t.filterMap ob := by
    simp [List.filterMap_append, List.filterMap_cons, h1]
  have hrel : (t ++ [e]).filterMap rel = t.filterMap rel ++ [h] := by
    simp [List.filterMap_append, List.filterMap_cons, h2]
  have hlive : liveOf h = [h] := by simp [liveOf, h0]
  have hnew : (t ++ [e]).filterMap ob = (t ++ [e]).filterMap rel ++ liveOf 0 := by
    rw [hob, hrel, heq, hlive]
    simp [liveOf]
  refine ⟨fun p hpre => ?_, hnew, fun x hx => ?_⟩
  · rcases List.prefix_concat_iff.1 hpre with rfl | hpre
    · refine ⟨⟨liveOf 0, liveOf_length 0, hnew⟩, ?_⟩
      rw [hob]
      exact (hp t (List.prefix_refl t)).2
    · exact hp p hpre
  · rw [hob] at hx
    have := hb x hx
    simp only [List.length_append, List.length_singleton]
    omega

theorem KindInv.obtain {ob rel : Event → Option Nat} {t : List Event} (e : Event) (h : Nat)
    (hh : h = 0 ∨ h = t.length + 1) (h1 : ob e = if h = 0 then none else some h)
    (h2 : rel e = none) (hinv : KindInv ob rel t 0) : KindInv ob rel (t ++ [e]) h := by
  by_cases h0 : h = 0
  · subst h0
    exact hinv.other e (by simpa using h1) h2
  · have hval : h = t.length + 1 := hh.resolve_left h0
    obtain ⟨hp, heq, hb⟩ := hinv
    have hob : (t ++ [e]).filterMap ob = t.filterMap ob ++ [h] := by
      simp [List.filterMap_append, List.filterMap_cons, h1, h0]
    have hrel : (t ++ [e]).filterMap rel = t.filterMap rel := by
      simp [List.filterMap_append, List.filterMap_cons, h2]
    have hlive : liveOf h = [h] := by simp [liveOf, h0]
    have hnew : (t ++ [e]).filterMap ob = (t ++ [e]).filterMap rel ++ liveOf h := by
      rw [hob, hrel, heq, hlive]
      simp [liveOf]
    have hnot : h ∉ t.filterMap ob := fun hmem => by
      have := hb h hmem
      omega
    refine ⟨fun p hpre => ?_, hnew, fun x hx => ?_⟩
    · rcases List.prefix_concat_iff.1 hpre with rfl | hpre
      · refine ⟨⟨liveOf h, liveOf_length h, hnew⟩, ?_⟩
        rw [hob]
        exact List.Nodup.append (hp t (List.prefix_refl t)).2 (List.nodup_singleton h)
          (by simpa [List.disjoint_singleton] using hnot)
      · exact hp p hpre
    · rw [hob] at hx
      simp only [List.length_append, List.length_singleton]
      rcases List.mem_append.1 hx with hx | hx
      · have := hb x hx
        omega
      · rw [List.mem_singleton.1 hx]
        omega

theorem KindInv.extend {ob rel : Event → Option Nat} {t t1 : List Event} {h : Nat}
    (hext : Extends (fun e => ob e = none ∧ rel e = none) t t1) (hinv : KindInv ob rel t h) :
    KindInv ob rel t1 h := by
  obtain ⟨added, rfl, hall⟩ := hext
  induction added generalizing t with
  | nil => simpa using hinv
  | cons e rest ih =>
    have h1 := hall e (List.mem_cons_self _ _)
    have := ih (hinv.other e h1.1 h1.2) (fun x hx => hall x (List.mem_cons_of_mem _ hx))
    simpa using this

theorem newHandle_cases (r : Reply V) (n : Nat) : newHandle r n = 0 ∨ newHandle r n = n + 1 := by
  unfold newHandle
  split
  · exact Or.inr rfl
  · exact Or.inl rfl

theorem HandleInv.congr {s s1 : State V} (ht : s1.trace = s.trace)
    (hS : s1.Symbolic = s.Symbolic) (hN : s1.Numeric = s.Numeric) (h : HandleInv s) :
    HandleInv s1 := by
  unfold HandleInv
  rw [ht, hS, hN]
  exact h

theorem HandleInv.frame {s s1 : State V} (hf : Frame s s1) (h : HandleInv s) : HandleInv s1 := by
  obtain ⟨-, -, -, -, -, -, f7, f8, -, -⟩ := hf.control
  exact h.congr hf.trace f7 f8

theorem HandleInv.handlesOK {s : State V} (h : HandleInv s) : HandlesOK s.trace :=
  fun p hp => ⟨h.1.1 p hp, h.2.1 p hp⟩

theorem PerformSymbolicFactorization_handles (env : Env V) (s : State V) (h : HandleInv s) :
    HandleInv (PerformSymbolicFactorization env s).state := by
  obtain ⟨hS, hN⟩ := h
  unfold PerformSymbolicFactorization
  dsimp only
  split_ifs with h1 h2 h2
  · exact ⟨(hS.release _ h1 rfl rfl).obtain _ _ (newHandle_cases _ _) rfl rfl,
      (hN.other _ rfl rfl).other _ rfl rfl⟩
  · exact ⟨hS.release _ h1 rfl rfl, hN.other _ rfl rfl⟩
  · have h0 : s.Symbolic = 0 := not_not.1 h1
    rw [h0] at hS
    exact ⟨hS.obtain _ _ (newHandle_cases _ _) rfl rfl, hN.other _ rfl rfl⟩
  · exact ⟨hS, hN⟩

theorem PerformNumericFactorization_handles (env : Env V) (s : State V) (h : HandleInv s) :
    HandleInv (PerformNumericFactorization env s).state := by
  obtain ⟨hS, hN⟩ := h
  unfold PerformNumericFactorization
  dsimp only
  split_ifs with h1 h2 h3 h3
  · exact ⟨(hS.other _ rfl rfl).other _ rfl rfl,
      (hN.release _ h2 rfl rfl).obtain _ _ (newHandle_cases _ _) rfl rfl⟩
  · exact ⟨(hS.other _ rfl rfl).other _ rfl rfl,
      (hN.release _ h2 rfl rfl).obtain _ _ (newHandle_cases _ _) rfl rfl⟩
  · have h0 : s.Numeric = 0 := not_not.1 h2
    rw [h0] at hN
    exact ⟨hS.other _ rfl rfl, hN.obtain _ _ (newHandle_cases _ _) rfl rfl⟩
  · have h0 : s.Numeric = 0 := not_not.1 h2
    rw [h0] at hN
    exact ⟨hS.other _ rfl rfl, hN.obtain _ _ (newHandle_cases _ _) rfl rfl⟩
  · exact ⟨hS, hN⟩

theorem andThen_flag_handles (o : Outcome V) (h : HandleInv o.state) :
    HandleInv (o.andThen fun _ s6 =>
      .ret 0 { s6 with IsNumericFactorizationOK_ := true }).state := by
  cases o <;> exact h

theorem SymbolicFactorization_handles (env : Env V) (s : State V) (h : HandleInv s) :
    HandleInv (SymbolicFactorization env s).state := by
  have he : HandleInv (symbolicEntry s) := h
  rcases SymbolicFactorization_spec env s with ⟨-, s3, hf, h3⟩ | ⟨-, s3, hf, -, -, -, h3⟩
  · rw [h3]
    exact he.frame hf
  · rw [h3]
    exact PerformSymbolicFactorization_handles env s3 (he.frame hf)

theorem NumericFactorization_handles (env : Env V) (s : State V) (h : HandleInv s) :
    HandleInv (NumericFactorization env s).state := by
  rcases NumericFactorization_spec env s with
    ⟨-, s3, hf, h3⟩ | ⟨-, -, s5, hf, -, -, -, h5⟩ | ⟨-, -, s3, hf, -, -, -, h3⟩
  · rw [h3]
    exact HandleInv.frame hf h
  · rw [h5]
    apply andThen_flag_handles
    apply PerformNumericFactorization_handles
    exact PerformSymbolicFactorization_handles env s5 (HandleInv.frame hf h)
  · rw [h3]
    apply andThen_flag_handles
    exact PerformNumericFactorization_handles env s3 (HandleInv.frame hf h)

theorem HandleInv.solves {s : State V} {t : List Event}
    (hext : Extends (fun e => e.isSolve = true) s.trace t) (h : HandleInv s) :
    HandleInv { s with trace := t } := by
  refine ⟨h.1.extend ?_, h.2.extend ?_⟩
  · obtain ⟨added, ht, hall⟩ := hext
    exact ⟨added, ht, fun e he => by
      have := hall e he
      cases e <;> simp_all [Event.isSolve, Event.obtainsSymbolic, Event.releasesSymbolic]⟩
  · obtain ⟨added, ht, hall⟩ := hext
    exact ⟨added, ht, fun e he => by
      have := hall e he
      cases e <;> simp_all [Event.isSolve, Event.obtainsNumeric, Event.releasesNumeric]⟩

theorem Solve_handles (env : Env V) (s : State V) (h : HandleInv s) :
    HandleInv (Solve env s).state := by
  have hfac : HandleInv (Solve.factorize env s).state := by
    have hdef : Solve.factorize env s =
        if !s.IsNumericFactorizationOK_ then NumericFactorization env (solveEntry s)
        else .ret 0 (solveEntry s) := rfl
    rw [hdef]
    split
    · exact NumericFactorization_handles env (solveEntry s) h
    · exact h
  unfold Solve
  cases hf : Solve.factorize env s with
  | abort s0 =>
    rw [hf] at hfac
    exact hfac
  | ret st s0 =>
    rw [hf] at hfac
    obtain ⟨h0, -⟩ := Solve_factorize_ret env s st s0 hf
    subst h0
    simp only [Outcome.andThen, AMESOS_CHK_ERR, ne_eq, not_true_eq_false, if_false]
    obtain ⟨t, ht, hext⟩ := Solve_vectors_frame env s0
    rw [ht]
    exact HandleInv.solves hext hfac

theorem GetRcond_handles (env : Env V) (s : State V) (h : HandleInv s) :
    HandleInv (GetRcond env s).2 := by
  unfold GetRcond
  dsimp only
  split_ifs
  · exact ⟨h.1.other _ rfl rfl, h.2.other _ rfl rfl⟩
  · exact h

theorem SetParameters_handles (pl : ParameterList V) (s : State V) (h : HandleInv s) :
    HandleInv (SetParameters pl s).state := by
  obtain ⟨s1, h1, hv⟩ := SetParameters_spec pl s
  rw [h1]
  exact h.congr (congrArg EngineView.trace hv) (congrArg EngineView.Symbolic hv)
    (congrArg EngineView.Numeric hv)

/-- Every public call keeps the handles in agreement with the trace, whether it returns or
ends the process. -/
theorem Call.run_handles (env : Env V) (c : Call V) (s : State V) (h : HandleInv s) :
    HandleInv (c.run env s).state := by
  cases c with
  | SetParameters pl => exact SetParameters_handles pl s h
  | SymbolicFactorization => exact SymbolicFactorization_handles env s h
  | NumericFactorization => exact NumericFactorization_handles env s h
  | Solve => exact Solve_handles env s h
  | GetRcond => exact GetRcond_handles env s h

theorem Reachable.handles {s : State V} (h : Reachable s) : HandleInv s := by
  induction h with
  | construct u => exact ⟨KindInv.nil _ _, KindInv.nil _ _⟩
  | call env c s status s1 _ hrun ih =>
    have := Call.run_handles env c s ih
    rw [hrun] at this
    exact this

theorem destruct_handles (s : State V) (h : HandleInv s) :
    HandleInv (destruct s) ∧ (destruct s).Symbolic = 0 ∧ (destruct s).Numeric = 0 ∧
      s.trace <+: (destruct s).trace := by
  obtain ⟨hS, hN⟩ := h
  unfold destruct
  dsimp only
  split_ifs with h1 h2 h2
  · exact ⟨⟨(hS.release _ h1 rfl rfl).other _ rfl rfl, (hN.other _ rfl rfl).release _ h2 rfl rfl⟩,
      rfl, rfl, by simp [List.append_assoc]⟩
  · exact ⟨⟨hS.release _ h1 rfl rfl, hN.other _ rfl rfl⟩, rfl, not_not.1 h2, by simp⟩
  · exact ⟨⟨hS.other _ rfl rfl, hN.release _ h2 rfl rfl⟩, not_not.1 h1, rfl, by simp⟩
  · exact ⟨⟨hS, hN⟩, not_not.1 h1, not_not.1 h2, List.prefix_refl _⟩

/-- C9: over any sequence of public calls from construction, followed by the destructor, the
ledgers of the symbolic and of the numeric objects are in order at every moment (at most one
object of each kind is live, every release is the release of the live object, no object is
handed out or released twice), after the destructor every object handed out has been
released and both handles are null; the ledgers are also in order at every moment of a call
that ends the process. -/
theorem handles_released_once :
    (∀ s : State V, Reachable s →
      s.trace <+: (destruct s).trace ∧ HandlesOK (destruct s).trace ∧
      AllReleased (destruct s).trace ∧
      (destruct s).Symbolic = 0 ∧ (destruct s).Numeric = 0) ∧
    (∀ (env : Env V) (c : Call V) (s : State V), Reachable s →
      HandlesOK (c.run env s).state.trace) := by
  refine ⟨fun s hs => ?_, fun env c s hs => (Call.run_handles env c s hs.handles).handlesOK⟩
  obtain ⟨hinv, h1, h2, h3⟩ := destruct_handles s hs.handles
  refine ⟨h3, hinv.handlesOK, ⟨?_, ?_⟩, h1, h2⟩
  · have := hinv.1.2.1
    rw [h1] at this
    simpa [liveOf] using this
  · have := hinv.2.2.1
    rw [h2] at this
    simpa [liveOf] using this

/-- After a `Solve` of the coordinator from the constructed state, the destructor releases the
symbolic and the numeric object the calls have obtained. -/
theorem handles_released_once_witness :
    Reachable solvedA ∧ solvedA.Symbolic = 1 ∧ solvedA.Numeric = 2 ∧
    solvedA.trace <+: (destruct solvedA).trace ∧ HandlesOK (destruct solvedA).trace ∧
    AllReleased (destruct solvedA).trace ∧
    (destruct solvedA).Symbolic = 0 ∧ (destruct solvedA).Numeric = 0 :=
  ⟨Reachable.call (sampleEnv 0 matrixA umfpackOk) .Solve fresh 0 solvedA
      (Reachable.construct _) rfl, rfl, rfl,
    (@handles_released_once Int _ _ _).1 solvedA
      (Reachable.call (sampleEnv 0 matrixA umfpackOk) .Solve fresh 0 solvedA
        (Reachable.construct _) rfl)⟩

end Handles

/-! ## The condition estimate -/

section Rcond

variable {V : Type} [Add V] [Zero V] [DecidableEq V]

theorem SymbolicFactorization_rcond (env : Env V) (s : State V) :
    (SymbolicFactorization env s).state.RcondValidOnAllProcs_ = s.RcondValidOnAllProcs_ := by
  rcases SymbolicFactorization_spec env s with ⟨-, s3, hf, h3⟩ | ⟨-, s3, hf, -, -, -, h3⟩
  · rw [h3]
    exact hf.control.2.2.2.2.2.2.2.2.2
  · rw [h3]
    exact (PerformSymbolicFactorization_control env s3).2.2.2.trans hf.control.2.2.2.2.2.2.2.2.2

theorem andThen_flag_rcond (o : Outcome V) :
    (o.andThen fun _ s6 =>
      .ret 0 { s6 with IsNumericFactorizationOK_ := true }).state.RcondValidOnAllProcs_ =
      o.state.RcondValidOnAllProcs_ ∧
    (o.andThen fun _ s6 =>
      .ret 0 { s6 with IsNumericFactorizationOK_ := true }).state.Rcond_ = o.state.Rcond_ := by
  cases o <;> exact ⟨rfl, rfl⟩

theorem NumericFactorization_rcond (env : Env V) (s : State V)
    (h : s.RcondValidOnAllProcs_ = false) :
    (NumericFactorization env s).state.RcondValidOnAllProcs_ = false := by
  rcases NumericFactorization_spec env s with
    ⟨-, s3, hf, h3⟩ | ⟨-, -, s5, hf, -, -, -, h5⟩ | ⟨-, -, s3, hf, -, -, -, h3⟩
  · rw [h3]
    exact hf.control.2.2.2.2.2.2.2.2.2.trans h
  · rw [h5, (andThen_flag_rcond _).1]
    exact (PerformNumericFactorization_control env _).2.2
  · rw [h3, (andThen_flag_rcond _).1]
    exact (PerformNumericFactorization_control env _).2.2

theorem Solve_rcond (env : Env V) (s : State V) (h : s.RcondValidOnAllProcs_ = false) :
    (Solve env s).state.RcondValidOnAllProcs_ = false := by
  have hfac : (Solve.factorize env s).state.RcondValidOnAllProcs_ = false := by
    have hdef : Solve.factorize env s =
        if !s.IsNumericFactorizationOK_ then NumericFactorization env (solveEntry s)
        else .ret 0 (solveEntry s) := rfl
    rw [hdef]
    split
    · exact NumericFactorization_rcond env (solveEntry s) h
    · exact h
  unfold Solve
  cases hf : Solve.factorize env s with
  | abort s0 =>
    rw [hf] at hfac
    exact hfac
  | ret st s0 =>
    rw [hf] at hfac
    obtain ⟨h0, -⟩ := Solve_factorize_ret env s st s0 hf
    subst h0
    simp only [Outcome.andThen, AMESOS_CHK_ERR, ne_eq, not_true_eq_false, if_false]
    obtain ⟨t, ht, -⟩ := Solve_vectors_frame env s0
    rw [ht]
    exact hfac

/-- No public call but `GetRcond` sets the validity flag. -/
theorem Call.run_rcond (env : Env V) (c : Call V) (s : State V)
    (h : s.RcondValidOnAllProcs_ = false) (hc : c.isGetRcond = false) :
    (c.run env s).state.RcondValidOnAllProcs_ = false := by
  cases c with
  | SetParameters pl =>
    obtain ⟨s1, h1, hv⟩ := SetParameters_spec pl s
    show (Amesos.SetParameters pl s).state.RcondValidOnAllProcs_ = false
    rw [h1]
    exact (congrArg EngineView.rcondValid hv).trans h
  | SymbolicFactorization => exact (SymbolicFactorization_rcond env s).trans h
  | NumericFactorization => exact NumericFactorization_rcond env s h
  | Solve => exact Solve_rcond env s h
  | GetRcond => exact absurd hc (by simp [Call.isGetRcond])

/-- On the coordinator a `NumericFactorization` that returns leaves in `Rcond_` the estimate
of its numeric engine call, the last event of the trace. -/
theorem NumericFactorization_estimate (env : Env V) (s : State V) (status : Int) (s1 : State V)
    (hpid : env.MyPID = 0) (h : NumericFactorization env s = .ret status s1) :
    ∃ t handle, s1.trace = t ++ [.umfpack_di_numeric (env.umfpack t.length).status handle] ∧
      s1.Rcond_ = (env.umfpack t.length).rcond := by
  have key : ∀ x : State V, x.iam = 0 →
      NumericFactorization env s = (PerformNumericFactorization env x).andThen
        (fun _ s6 => .ret 0 { s6 with IsNumericFactorizationOK_ := true }) →
      ∃ t handle, s1.trace = t ++ [.umfpack_di_numeric (env.umfpack t.length).status handle] ∧
        s1.Rcond_ = (env.umfpack t.length).rcond := by
    intro x hx hN
    obtain ⟨t, handle, ht, -, hr, -, -⟩ := PerformNumericFactorization_coordinator env x hx
    have h1 : (NumericFactorization env s).state = s1 := by rw [h]; rfl
    refine ⟨t, handle, ?_, ?_⟩
    · rw [← h1, hN, andThen_flag_state]
      exact ht
    · rw [← h1, hN, (andThen_flag_rcond _).2]
      exact hr
  rcases NumericFactorization_spec env s with
    ⟨-, s3, -, h3⟩ | ⟨-, -, s5, -, g1, -, -, h5⟩ | ⟨-, -, s3, -, g1, -, -, h3⟩
  · rw [h3] at h
    exact absurd h (by simp)
  · refine key _ ?_ h5
    exact ((PerformSymbolicFactorization_control env s5).1.iam).trans (g1.trans hpid)
  · exact key s3 (g1.trans hpid) h3

/-- A `GetRcond` entered with the flag not set broadcasts: process 0 keeps its estimate, every
other process takes the one process 0 sends; the flag is set afterwards. -/
theorem GetRcond_broadcast (env : Env V) (s : State V) (h : s.RcondValidOnAllProcs_ = false) :
    GetRcond env s = (Broadcast env s.Rcond_,
      { s with Rcond_ := Broadcast env s.Rcond_, RcondValidOnAllProcs_ := true,
               trace := s.trace ++ [.Broadcast_Rcond] }) := by
  simp [GetRcond, h]

/-- A `GetRcond` entered with the flag set returns the stored estimate and changes nothing. -/
theorem GetRcond_valid (env : Env V) (s : State V) (h : s.RcondValidOnAllProcs_ = true) :
    GetRcond env s = (s.Rcond_, s) := by
  simp [GetRcond, h]

theorem gatherRcond_spec (base : Env V) (root : V) (pid : Nat) (procs : List (State V))
    (hpid : pid ≠ 0) (hflag : ∀ s ∈ procs, s.RcondValidOnAllProcs_ = false) :
    (gatherRcond base root pid procs).length = procs.length ∧
    ∀ r ∈ gatherRcond base root pid procs,
      r.1 = root ∧ r.2.Rcond_ = root ∧ r.2.RcondValidOnAllProcs_ = true ∧
      ∃ s ∈ procs, r.2.trace = s.trace ++ [.Broadcast_Rcond] := by
  induction procs generalizing pid with
  | nil => exact ⟨rfl, fun r hr => absurd hr (List.not_mem_nil r)⟩
  | cons s rest ih =>
    obtain ⟨ihlen, ihall⟩ := ih (pid + 1) (Nat.succ_ne_zero pid)
      (fun x hx => hflag x (List.mem_cons_of_mem _ hx))
    refine ⟨by simp [gatherRcond, ihlen], fun r hr => ?_⟩
    simp only [gatherRcond, List.mem_cons] at hr
    rcases hr with rfl | hr
    · rw [GetRcond_broadcast _ _ (hflag s (List.mem_cons_self _ _))]
      have hb : Broadcast (commEnv base pid root) s.Rcond_ = root := by
        simp [Broadcast, commEnv, hpid]
      exact ⟨hb, hb, rfl, s, List.mem_cons_self _ _, rfl⟩
    · obtain ⟨h1, h2, h3, x, hx, h4⟩ := ihall r hr
      exact ⟨h1, h2, h3, x, List.mem_cons_of_mem _ hx, h4⟩

/-- C10: on every process the validity flag is not set after a `NumericFactorization` that
returns; no public call but `GetRcond` sets it, and a `GetRcond` entered with the flag not
set broadcasts and sets it. When the coordinator and the other processes have all run
`NumericFactorization` and then call `GetRcond` together, every process returns the estimate
that the numeric engine call of the coordinator produced, sets its flag, and has broadcast
once; a further `GetRcond` on any of them returns the same value and changes nothing, so
there is no second broadcast. -/
theorem rcond_consistency :
    (∀ (env : Env V) (s : State V) status s1, NumericFactorization env s = .ret status s1 →
      s1.RcondValidOnAllProcs_ = false) ∧
    (∀ (env : Env V) (c : Call V) (s : State V), s.RcondValidOnAllProcs_ = false →
      c.isGetRcond = false → (c.run env s).state.RcondValidOnAllProcs_ = false) ∧
    (∀ (env : Env V) (s : State V), s.RcondValidOnAllProcs_ = false →
      (GetRcond env s).2.RcondValidOnAllProcs_ = true ∧
      (GetRcond env s).2.trace = s.trace ++ [.Broadcast_Rcond]) ∧
    (∀ (base env0 : Env V) (s0 n0 : State V) (others : List (State V)) status,
      env0.MyPID = 0 → NumericFactorization env0 s0 = .ret status n0 →
      (∀ n ∈ others, ∃ (env : Env V) (s : State V) (st : Int),
        NumericFactorization env s = .ret st n) →
      ∃ t handle,
        n0.trace = t ++ [.umfpack_di_numeric (env0.umfpack t.length).status handle] ∧
        (GetRcondAll base (n0 :: others)).length = (n0 :: others).length ∧
        ∀ r ∈ GetRcondAll base (n0 :: others),
          r.1 = (env0.umfpack t.length).rcond ∧
          r.2.RcondValidOnAllProcs_ = true ∧
          (∃ n ∈ n0 :: others, r.2.trace = n.trace ++ [.Broadcast_Rcond]) ∧
          ∀ env1 : Env V, GetRcond env1 r.2 = (r.1, r.2)) := by
  have hnum : ∀ (env : Env V) (s : State V) status s1,
      NumericFactorization env s = .ret status s1 → s1.RcondValidOnAllProcs_ = false :=
    fun env s status s1 h => (NumericFactorization_ret env s status s1 h).2.2.2.2.2.2.2.2.2.2.2
  refine ⟨hnum, Call.run_rcond, fun env s h => ?_, ?_⟩
  · rw [GetRcond_broadcast env s h]
    exact ⟨rfl, rfl⟩
  · intro base env0 s0 n0 others status hpid h0 hothers
    obtain ⟨t, handle, ht, hr⟩ := NumericFactorization_estimate env0 s0 status n0 hpid h0
    have hflag0 := hnum env0 s0 status n0 h0
    have hflags : ∀ n ∈ others, n.RcondValidOnAllProcs_ = false := by
      intro n hn
      obtain ⟨env, s, st, h⟩ := hothers n hn
      exact hnum env s st n h
    obtain ⟨hlen, hall⟩ := gatherRcond_spec base n0.Rcond_ 1 others (by decide) hflags
    refine ⟨t, handle, ht, by simp [GetRcondAll, gatherRcond, hlen], fun r hmem => ?_⟩
    simp only [GetRcondAll, gatherRcond, List.mem_cons] at hmem
    rcases hmem with rfl | hmem
    · rw [GetRcond_broadcast _ _ hflag0]
      have hb : Broadcast (commEnv base 0 n0.Rcond_) n0.Rcond_ = n0.Rcond_ := by
        simp [Broadcast, commEnv]
      rw [hb]
      refine ⟨hr, rfl, ⟨n0, List.mem_cons_self _ _, rfl⟩, fun env1 => ?_⟩
      exact GetRcond_valid env1 _ rfl
    · obtain ⟨h1, h2, h3, n, hn, h4⟩ := hall r hmem
      refine ⟨h1.trans hr, h3, ⟨n, List.mem_cons_of_mem _ hn, h4⟩, fun env1 => ?_⟩
      rw [GetRcond_valid env1 _ h3, h2, h1]

/-- Two processes that have factored the sample matrix and call `GetRcond` together both
return the estimate `7` of the numeric call of the coordinator. -/
theorem rcond_consistency_witness :
    (sampleEnv 0 matrixA umfpackOk).MyPID = 0 ∧
    NumericFactorization (sampleEnv 0 matrixA umfpackOk) fresh = .ret 0 (factoredA 0) ∧
    NumericFactorization (sampleEnv 1 matrixA umfpackOk) fresh = .ret 0 (factoredA 1) ∧
    ∃ t handle,
      (factoredA 0).trace = t ++ [.umfpack_di_numeric
        ((sampleEnv 0 matrixA umfpackOk).umfpack t.length).status handle] ∧
      (GetRcondAll (sampleEnv 0 matrixA umfpackOk) [factoredA 0, factoredA 1]).length =
        [factoredA 0, factoredA 1].length ∧
      ∀ r ∈ GetRcondAll (sampleEnv 0 matrixA umfpackOk) [factoredA 0, factoredA 1],
        r.1 = ((sampleEnv 0 matrixA umfpackOk).umfpack t.length).rcond ∧
        r.2.RcondValidOnAllProcs_ = true ∧
        (∃ n ∈ [factoredA 0, factoredA 1], r.2.trace = n.trace ++ [.Broadcast_Rcond]) ∧
        ∀ env1 : Env Int, GetRcond env1 r.2 = (r.1, r.2) :=
  ⟨rfl, rfl, rfl,
    (@rcond_consistency Int _ _ _).2.2.2 (sampleEnv 0 matrixA umfpackOk)
      (sampleEnv 0 matrixA umfpackOk) fresh (factoredA 0) [factoredA 1] 0 rfl rfl
      (fun n hn => ⟨sampleEnv 1 matrixA umfpackOk, fresh, 0, by
        rw [List.mem_singleton.1 hn]
        rfl⟩)⟩

end Rcond

/-! ## The options -/

section Options

variable {V : Type} [Add V] [Zero V] [DecidableEq V]

theorem proj_ite {α : Type} (f : State V → α) (c : Prop) {d : Decidable c} (x y : State V)
    (h : f y = f x) : f (@ite _ c d y x) = f x := by
  split
  · exact h
  · rfl

theorem set_ite {α : Type} (f : State V → α) (c : Prop) {d : Decidable c} (x y : State V)
    {v w : α} (hy : f y = v) (hx : f x = w) : f (@ite _ c d y x) = @ite _ c d v w := by
  split
  · exact hy
  · exact hx

/-- A state whose rest is that of `s` is `s` with other values of the seven options. -/
theorem rest_frame (s s1 : State V) (h : s1.rest = s.rest) :
    s1 = { s with UseTranspose_ := s1.UseTranspose_, PrintTiming_ := s1.PrintTiming_,
                  PrintStatus_ := s1.PrintStatus_, AddToDiag_ := s1.AddToDiag_,
                  ComputeVectorNorms_ := s1.ComputeVectorNorms_,
                  ComputeTrueResidual_ := s1.ComputeTrueResidual_, verbose_ := s1.verbose_ } := by
  have h1 : s1 = { s1.rest with UseTranspose_ := s1.UseTranspose_,
                                PrintTiming_ := s1.PrintTiming_, PrintStatus_ := s1.PrintStatus_,
                                AddToDiag_ := s1.AddToDiag_,
                                ComputeVectorNorms_ := s1.ComputeVectorNorms_,
                                ComputeTrueResidual_ := s1.ComputeTrueResidual_,
                                verbose_ := s1.verbose_ } := rfl
  rw [h] at h1
  exact h1

/-- C11: a constructed instance has the options `UseTranspose_ = false`, `PrintTiming_ =
false`, `PrintStatus_ = false`, `AddToDiag_ = 0`, `ComputeVectorNorms_ = false`,
`ComputeTrueResidual_ = false` and `verbose_` (the output level) `= 1`. For every parameter
list, `SetParameters` returns `0`; each of the seven options is what the list returns for its
key when the key is a parameter of the list, and what it was before when the key is not;
every other member is as before. A list in which none of the seven keys is a parameter
leaves the whole state as it is, and two lists that answer alike for the seven keys have
the same effect, whatever other keys they hold. -/
theorem SetParameters_options :
    (∀ u : Indeterminate,
      (construct u : State V).UseTranspose_ = false ∧
      (construct u : State V).PrintTiming_ = false ∧
      (construct u : State V).PrintStatus_ = false ∧
      (construct u : State V).AddToDiag_ = 0 ∧
      (construct u : State V).ComputeVectorNorms_ = false ∧
      (construct u : State V).ComputeTrueResidual_ = false ∧
      (construct u : State V).verbose_ = 1) ∧
    (∀ (pl : ParameterList V) (s : State V), ∃ s1, SetParameters pl s = .ret 0 s1 ∧
      s1.UseTranspose_ = (if pl.isParameter "UseTranspose" then pl.getBool "UseTranspose" false else s.UseTranspose_) ∧
      s1.PrintTiming_ = (if pl.isParameter "PrintTiming" then pl.getBool "PrintTiming" false else s.PrintTiming_) ∧
      s1.PrintStatus_ = (if pl.isParameter "PrintStatus" then pl.getBool "PrintStatus" false else s.PrintStatus_) ∧
      s1.AddToDiag_ = (if pl.isParameter "AddToDiag" then pl.getDouble "AddToDiag" 0 else s.AddToDiag_) ∧
      s1.ComputeVectorNorms_ = (if pl.isParameter "ComputeVectorNorms" then pl.getBool "ComputeVectorNorms" false else s.ComputeVectorNorms_) ∧
      s1.ComputeTrueResidual_ = (if pl.isParameter "ComputeTrueResidual" then pl.getBool "ComputeTrueResidual" false else s.ComputeTrueResidual_) ∧
      s1.verbose_ = (if pl.isParameter "OutputLevel" then pl.getInt "OutputLevel" 1 else s.verbose_) ∧
      s1 = { s with UseTranspose_ := s1.UseTranspose_, PrintTiming_ := s1.PrintTiming_,
                    PrintStatus_ := s1.PrintStatus_, AddToDiag_ := s1.AddToDiag_,
                    ComputeVectorNorms_ := s1.ComputeVectorNorms_,
                    ComputeTrueResidual_ := s1.ComputeTrueResidual_,
                    verbose_ := s1.verbose_ }) ∧
    (∀ (pl : ParameterList V) (s : State V),
      (∀ key ∈ recognizedKeys, pl.isParameter key = false) → SetParameters pl s = .ret 0 s) ∧
    (∀ (pl pl1 : ParameterList V) (s : State V),
      (∀ key ∈ recognizedKeys, pl.isParameter key = pl1.isParameter key ∧
        (∀ d, pl.getBool key d = pl1.getBool key d) ∧
        (∀ d, pl.getInt key d = pl1.getInt key d) ∧
        (∀ d, pl.getDouble key d = pl1.getDouble key d)) →
      SetParameters pl s = SetParameters pl1 s) := by
  refine ⟨fun u => ⟨rfl, rfl, rfl, rfl, rfl, rfl, rfl⟩, fun pl s => ?_, fun pl s h => ?_,
    fun pl pl1 s h => ?_⟩
  · refine ⟨_, rfl, ?_, ?_, ?_, ?_, ?_, ?_, ?_, ?_⟩
    · -- `UseTranspose_`: written by step 1, kept by the steps after it
      apply Eq.trans
      · exact proj_ite State.UseTranspose_ _ _ _ rfl
      apply Eq.trans
      · exact proj_ite State.UseTranspose_ _ _ _ rfl
      apply Eq.trans
      · exact proj_ite State.UseTranspose_ _ _ _ rfl
      apply Eq.trans
      · exact proj_ite State.UseTranspose_ _ _ _ rfl
      apply Eq.trans
      · exact proj_ite State.UseTranspose_ _ _ _ rfl
      apply Eq.trans
      · exact proj_ite State.UseTranspose_ _ _ _ rfl
      refine set_ite State.UseTranspose_ _ _ _ rfl ?_
      rfl
    · -- `PrintTiming_`: written by step 2, kept by the steps after it
      apply Eq.trans
      · exact proj_ite State.PrintTiming_ _ _ _ rfl
      apply Eq.trans
      · exact proj_ite State.PrintTiming_ _ _ _ rfl
      apply Eq.trans
      · exact proj_ite State.PrintTiming_ _ _ _ rfl
      apply Eq.trans
      · exact proj_ite State.PrintTiming_ _ _ _ rfl
      apply Eq.trans
      · exact proj_ite State.PrintTiming_ _ _ _ rfl
      refine set_ite State.PrintTiming_ _ _ _ rfl ?_
      apply Eq.trans
      · exact proj_ite State.PrintTiming_ _ _ _ rfl
      rfl
    · -- `PrintStatus_`: written by step 3, kept by the steps after it
      apply Eq.trans
      · exact proj_ite State.PrintStatus_ _ _ _ rfl
      apply Eq.trans
      · exact proj_ite State.PrintStatus_ _ _ _ rfl
      apply Eq.trans
      · exact proj_ite State.PrintStatus_ _ _ _ rfl
      apply Eq.trans
      · exact proj_ite State.PrintStatus_ _ _ _ rfl
      refine set_ite State.PrintStatus_ _ _ _ rfl ?_
      apply Eq.trans
      · exact proj_ite State.PrintStatus_ _ _ _ rfl
      apply Eq.trans
      · exact proj_ite State.PrintStatus_ _ _ _ rfl
      rfl
    · -- `AddToDiag_`: written by step 4, kept by the steps after it
      apply Eq.trans
      · exact proj_ite State.AddToDiag_ _ _ _ rfl
      apply Eq.trans
      · exact proj_ite State.AddToDiag_ _ _ _ rfl
      apply Eq.trans
      · exact proj_ite State.AddToDiag_ _ _ _ rfl
      refine set_ite State.AddToDiag_ _ _ _ rfl ?_
      apply Eq.trans
      · exact proj_ite State.AddToDiag_ _ _ _ rfl
      apply Eq.trans
      · exact proj_ite State.AddToDiag_ _ _ _ rfl
      apply Eq.trans
      · exact proj_ite State.AddToDiag_ _ _ _ rfl
      rfl
    · -- `ComputeVectorNorms_`: written by step 5, kept by the steps after it
      apply Eq.trans
      · exact proj_ite State.ComputeVectorNorms_ _ _ _ rfl
      apply Eq.trans
      · exact proj_ite State.ComputeVectorNorms_ _ _ _ rfl
      refine set_ite State.ComputeVectorNorms_ _ _ _ rfl ?_
      apply Eq.trans
      · exact proj_ite State.ComputeVectorNorms_ _ _ _ rfl
      apply Eq.trans
      · exact proj_ite State.ComputeVectorNorms_ _ _ _ rfl
      apply Eq.trans
      · exact proj_ite State.ComputeVectorNorms_ _ _ _ rfl
      apply Eq.trans
      · exact proj_ite State.ComputeVectorNorms_ _ _ _ rfl
      rfl
    · -- `ComputeTrueResidual_`: written by step 6, kept by the steps after it
      apply Eq.trans
      · exact proj_ite State.ComputeTrueResidual_ _ _ _ rfl
      refine set_ite State.ComputeTrueResidual_ _ _ _ rfl ?_
      apply Eq.trans
      · exact proj_ite State.ComputeTrueResidual_ _ _ _ rfl
      apply Eq.trans
      · exact proj_ite State.ComputeTrueResidual_ _ _ _ rfl
      apply Eq.trans
      · exact proj_ite State.ComputeTrueResidual_ _ _ _ rfl
      apply Eq.trans
      · exact proj_ite State.ComputeTrueResidual_ _ _ _ rfl
      apply Eq.trans
      · exact proj_ite State.ComputeTrueResidual_ _ _ _ rfl
      rfl
    · -- `verbose_`: written by step 7, kept by the steps after it
      refine set_ite State.verbose_ _ _ _ rfl ?_
      apply Eq.trans
      · exact proj_ite State.verbose_ _ _ _ rfl
      apply Eq.trans
      · exact proj_ite State.verbose_ _ _ _ rfl
      apply Eq.trans
      · exact proj_ite State.verbose_ _ _ _ rfl
      apply Eq.trans
      · exact proj_ite State.verbose_ _ _ _ rfl
      apply Eq.trans
      · exact proj_ite State.verbose_ _ _ _ rfl
      apply Eq.trans
      · exact proj_ite State.verbose_ _ _ _ rfl
      rfl
    · apply rest_frame
      iterate 6
        apply Eq.trans
        · exact proj_ite State.rest _ _ _ rfl
      exact proj_ite State.rest _ _ _ rfl
  · have h1 := h "UseTranspose" (by simp [recognizedKeys])
    have h2 := h "PrintTiming" (by simp [recognizedKeys])
    have h3 := h "PrintStatus" (by simp [recognizedKeys])
    have h4 := h "AddToDiag" (by simp [recognizedKeys])
    have h5 := h "ComputeVectorNorms" (by simp [recognizedKeys])
    have h6 := h "ComputeTrueResidual" (by simp [recognizedKeys])
    have h7 := h "OutputLevel" (by simp [recognizedKeys])
    simp only [SetParameters, h1, h2, h3, h4, h5, h6, h7, Bool.false_eq_true, if_false]
  · obtain ⟨a1, b1, -, -⟩ := h "UseTranspose" (by simp [recognizedKeys])
    obtain ⟨a2, b2, -, -⟩ := h "PrintTiming" (by simp [recognizedKeys])
    obtain ⟨a3, b3, -, -⟩ := h "PrintStatus" (by simp [recognizedKeys])
    obtain ⟨a4, -, -, b4⟩ := h "AddToDiag" (by simp [recognizedKeys])
    obtain ⟨a5, b5, -, -⟩ := h "ComputeVectorNorms" (by simp [recognizedKeys])
    obtain ⟨a6, b6, -, -⟩ := h "ComputeTrueResidual" (by simp [recognizedKeys])
    obtain ⟨a7, -, b7, -⟩ := h "OutputLevel" (by simp [recognizedKeys])
    simp only [SetParameters, a1, a2, a3, a4, a5, a6, a7, b1, b2, b3, b4, b5, b6, b7]

/-- Witness of C11: on the fresh state `listA` sets the three options whose keys it holds to
its values and keeps the option `UseTranspose_`, whose key it does not hold; `listB`, which
holds none of the seven keys, leaves the state as it is; and `listA` has the effect of
`listC`, from which it differs in the key `MaxProcs` only. -/
theorem SetParameters_options_witness :
    (∃ s1, SetParameters listA fresh = .ret 0 s1 ∧ s1.PrintTiming_ = true ∧
      s1.AddToDiag_ = 2 ∧ s1.verbose_ = 2 ∧ s1.UseTranspose_ = fresh.UseTranspose_) ∧
    ((∀ key ∈ recognizedKeys, listB.isParameter key = false) ∧
      SetParameters listB fresh = .ret 0 fresh) ∧
    ((∀ key ∈ recognizedKeys, listA.isParameter key = listC.isParameter key ∧
        (∀ d, listA.getBool key d = listC.getBool key d) ∧
        (∀ d, listA.getInt key d = listC.getInt key d) ∧
        (∀ d, listA.getDouble key d = listC.getDouble key d)) ∧
      SetParameters listA fresh = SetParameters listC fresh) := by
  have hAC : ∀ key ∈ recognizedKeys, listA.isParameter key = listC.isParameter key ∧
      (∀ d, listA.getBool key d = listC.getBool key d) ∧
      (∀ d, listA.getInt key d = listC.getInt key d) ∧
      (∀ d, listA.getDouble key d = listC.getDouble key d) := by
    intro key hk
    simp only [recognizedKeys, List.mem_cons, List.mem_singleton, List.not_mem_nil,
      or_false] at hk
    rcases hk with rfl | rfl | rfl | rfl | rfl | rfl | rfl <;>
      exact ⟨rfl, fun _ => rfl, fun _ => rfl, fun _ => rfl⟩
  refine ⟨?_, ⟨by decide, (@SetParameters_options Int _ _ _).2.2.1 listB fresh (by decide)⟩,
    hAC, (@SetParameters_options Int _ _ _).2.2.2 listA listC fresh hAC⟩
  obtain ⟨s1, h, h1, h2, -, h4, -, -, h7, -⟩ :=
    (@SetParameters_options Int _ _ _).2.1 listA fresh
  exact ⟨s1, h, h2, h4, h7, h1⟩

end Options

end Amesos
